import Mathlib

/-! # gohtmx v2 template components: directive emission

A shallow embedding of `v2/template.go` (package `gohtmx`): the four directive
emitting components `Variable`, `With`, `Condition` and `Conditions`, each with
its `Init(f *Framework, w io.Writer) error` method.

Conventions of the embedding

* The pair `(f, w)` an `Init` receives is one value of type `Env`.  It holds
  what `f.CanTemplate()` reports, the state of `f.Generator`, the behaviour
  of the writer `w` for its coming `Write` calls, and one chronological
  `trace` of the two effects an `Init` can have on the outside world: a
  registration `f.Template.Funcs(FuncMap{id: fn})` and a successful
  `w.Write(text)`.  The function registry and the bytes of the output stream
  are projections of that trace (`Env.lookup`, `Env.output`).
* A Go `Component` is any value with an `Init` method, so a `Component` here
  is a function `Env → Env × Outcome`.  A nil interface value is `none` of
  `Option Component`; calling `Init` on it is the Go runtime panic
  (nil dereference), outcome `Outcome.panic`.
* Go `func` values are opaque at compile time; `Callback` is the identity of
  one.  A nil predicate is `none`.
* `fmt.Errorf("msg: %w", err)` is `Error.wrap "msg" err`.
* `Raw`, `Fragment`, `Framework` and its generator are declared in other files
  of the package; they are modelled from the specification (sections 4.1 to
  4.3), each under a comment that says so.
-/

set_option linter.dupNamespace false

namespace Gohtmx

/-- Identity of a Go function value handed to a node (never invoked here). -/
abbrev Callback := Nat

/-- Go `error` values that can reach this file. -/
inductive Error where
  /-- The package sentinel `ErrCannotTemplate`. -/
  | ErrCannotTemplate
  /-- An error returned by the output stream's `Write`. -/
  | io (msg : String)
  /-- The value of `fmt.Errorf(msg + ": %w", cause)`. -/
  | wrap (msg : String) (cause : Error)
deriving DecidableEq, Repr

/-- What `errors.Unwrap` reaches at the bottom of the chain. -/
def Error.root : Error → Error
  | .wrap _ cause => cause.root
  | e => e

/-- How a call of `Init` ends: `return nil`, `return err`, or a runtime panic. -/
inductive Outcome where
  | ok
  | error (e : Error)
  | panic
deriving DecidableEq, Repr

/-- The two effects of an `Init` on the outside world, in the order they happen. -/
inductive Event where
  /-- The call `f.Template = f.Template.Funcs(template.FuncMap{id: fn})`. -/
  | registered (id : String) (fn : Callback)
  /-- A successful `w.Write([]byte(text))`. -/
  | wrote (text : String)
deriving DecidableEq, Repr

/-- Modelled from the spec: IdentifierGenerator (4.1), `f.Generator`, whose code
is not in `template.go`.  `allocate(callback) -> identifier` always succeeds; the
identifier may depend on the callback and on everything allocated before, and
nothing else is assumed of it: `naming issued fn` is the identifier returned for
`fn` after the callbacks `issued` were served. -/
structure Generator where
  issued : List Callback
  naming : List Callback → Callback → String

/-- The pair `(f *Framework, w io.Writer)` passed to every `Init`. -/
structure Env where
  /-- What `f.CanTemplate()` reports (the spec's `templatingEnabled`). -/
  canTemplate : Bool
  /-- The state of `f.Generator`. -/
  generator : Generator
  /-- Registrations in `f.Template` and successful writes to `w`, oldest first. -/
  trace : List Event
  /-- The behaviour of `w` on its coming `Write` calls, one entry per call:
  `none` accepts the bytes, `some msg` rejects them with the error `msg`.
  Calls beyond the list are accepted. -/
  faults : List (Option String)

/-- A value implementing the `Component` interface: its `Init` method. -/
abbrev Component := Env → Env × Outcome

/-- Modelled from the spec: `f.CanTemplate()`, whose code is not in
`template.go`, reports the capability flag `templatingEnabled` of the
compilation context (section 3). -/
def Env.CanTemplate (s : Env) : Bool := s.canTemplate

/-- Modelled from the spec: the call `f.Generator.NewFunctionID(fn)`, the
`allocate` of section 4.1: it returns the identifier and moves the generator on;
it has no error condition. -/
def Env.NewFunctionID (s : Env) (fn : Callback) : String × Env :=
  (s.generator.naming s.generator.issued fn,
   { s with generator := { s.generator with issued := s.generator.issued ++ [fn] } })

/-- The statement `f.Template = f.Template.Funcs(template.FuncMap{id: fn})`. -/
def Env.Funcs (s : Env) (id : String) (fn : Callback) : Env :=
  { s with trace := s.trace ++ [Event.registered id fn] }

/-- The call `w.Write([]byte(text))`: the next entry of `faults` decides.  An
accepted write appends the whole text; a rejected write appends nothing. -/
def Env.Write (s : Env) (text : String) : Env × Option Error :=
  match s.faults with
  | [] => ({ s with trace := s.trace ++ [Event.wrote text] }, none)
  | none :: rest => ({ s with trace := s.trace ++ [Event.wrote text], faults := rest }, none)
  | some msg :: rest => ({ s with faults := rest }, some (Error.io msg))

/-- The texts written to the output stream, oldest first, one per `Write`. -/
def chunksOf : List Event → List String
  | [] => []
  | Event.wrote text :: rest => text :: chunksOf rest
  | Event.registered _ _ :: rest => chunksOf rest

/-- The bytes in the output stream. -/
def Env.output (s : Env) : String := String.join (chunksOf s.trace)

/-- The callback registered under `id` by the registrations of a trace, if any:
a later registration of the same name replaces an earlier one. -/
def lookupFunc : List Event → String → Option Callback
  | [], _ => none
  | Event.registered id fn :: rest, x =>
    match lookupFunc rest x with
    | some g => some g
    | none => if x = id then some fn else none
  | Event.wrote _ :: rest, x => lookupFunc rest x

/-- The callback `f.Template` holds for `id`. -/
def Env.lookup (s : Env) (id : String) : Option Callback := lookupFunc s.trace id

/-- Modelled from the spec: the literal emission primitive (4.2), `Raw`, whose
code is not in `template.go`: "writes text verbatim to the output stream. Fails
only if the underlying output stream fails, which is surfaced unchanged". -/
def Raw.Init (text : String) : Component := fun s =>
  match s.Write text with
  | (s1, none) => (s1, Outcome.ok)
  | (s1, some e) => (s1, Outcome.error e)

/-- Modelled from the spec: the sequential composite (4.3), `Fragment`, whose
code is not in `template.go`: "Initializes each child in list order against the
same context and output stream; the first child failure aborts immediately and is
propagated with no further children initialized". -/
def Fragment.Init : List Component → Component
  | [], s => (s, Outcome.ok)
  | c :: rest, s =>
    match c s with
    | (s1, Outcome.ok) => Fragment.Init rest s1
    | (s1, o) => (s1, o)

/-- The method call `c.Init(f, w)` on an interface value that may be nil. -/
def callInit (c : Option Component) : Component := fun s =>
  match c with
  | some x => x s
  | none => (s, Outcome.panic)

/-- The struct `Variable`. -/
structure Variable where
  Name : String
  Func : Callback

/-- The struct `With`; `Content` is an interface value, possibly nil. -/
structure With where
  Func : Callback
  Content : Option Component

/-- The struct `Condition`; both fields may be nil. -/
structure Condition where
  Condition : Option Callback
  Content : Option Component

/-- The type `Conditions []Condition`. -/
abbrev Conditions := List Condition

/-- `Variable.Init` (template.go 17-24). -/
def Variable.Init (tv : Variable) : Component := fun s =>
  if !s.CanTemplate then (s, Outcome.error Error.ErrCannotTemplate) else
  let (id, s1) := s.NewFunctionID tv.Func
  let s2 := s1.Funcs id tv.Func
  Raw.Init ("\x7b\x7b" ++ tv.Name ++ " := " ++ id ++ " $r\x7d\x7d") s2

/-- `With.Init` (template.go 31-53). -/
def With.Init (t : With) : Component := fun s =>
  if !s.CanTemplate then (s, Outcome.error Error.ErrCannotTemplate) else
  match t.Content with
  | none => (s, Outcome.ok)
  | some content =>
    let (id, s1) := s.NewFunctionID t.Func
    let s2 := s1.Funcs id t.Func
    match Raw.Init ("\x7b\x7bwith " ++ id ++ " $r\x7d\x7d") s2 with
    | (s3, Outcome.error e) => (s3, Outcome.error (Error.wrap "failed to write with prefix" e))
    | (s3, Outcome.panic) => (s3, Outcome.panic)
    | (s3, Outcome.ok) =>
      match content s3 with
      | (s4, Outcome.error e) => (s4, Outcome.error (Error.wrap "failed to write with content" e))
      | (s4, Outcome.panic) => (s4, Outcome.panic)
      | (s4, Outcome.ok) =>
        match Raw.Init "\x7b\x7bend\x7d\x7d" s4 with
        | (s5, Outcome.error e) => (s5, Outcome.error (Error.wrap "failed to write with suffix" e))
        | (s5, Outcome.panic) => (s5, Outcome.panic)
        | (s5, Outcome.ok) => (s5, Outcome.ok)

/-- `Condition.ConditionString`: `fmt.Sprintf("if %s $r", id)`. -/
def Condition.ConditionString (_tc : Gohtmx.Condition) (id : String) : String :=
  "if " ++ id ++ " $r"

/-- `Condition.Init` (template.go 64-92). -/
def Condition.Init (tc : Gohtmx.Condition) : Component := fun s =>
  if !s.CanTemplate then (s, Outcome.error Error.ErrCannotTemplate) else
  match tc.Content with
  | none => (s, Outcome.ok)
  | some content =>
    match tc.Condition with
    | none => content s
    | some cond =>
      let (id, s1) := s.NewFunctionID cond
      let s2 := s1.Funcs id cond
      match Raw.Init ("\x7b\x7b" ++ tc.ConditionString id ++ "\x7d\x7d") s2 with
      | (s3, Outcome.error e) =>
        (s3, Outcome.error (Error.wrap "failed to write condition prefix" e))
      | (s3, Outcome.panic) => (s3, Outcome.panic)
      | (s3, Outcome.ok) =>
        match content s3 with
        | (s4, Outcome.error e) =>
          (s4, Outcome.error (Error.wrap "failed to write condition content" e))
        | (s4, Outcome.panic) => (s4, Outcome.panic)
        | (s4, Outcome.ok) =>
          match Raw.Init "\x7b\x7bend\x7d\x7d" s4 with
          | (s5, Outcome.error e) =>
            (s5, Outcome.error (Error.wrap "failed to write condition suffix" e))
          | (s5, Outcome.panic) => (s5, Outcome.panic)
          | (s5, Outcome.ok) => (s5, Outcome.ok)

/-- How the `for i, tc := range tcs` loop of `Conditions.Init` ends: it runs to
the end with the locals `elses` and `branches`, or the function leaves from
inside the loop body. -/
inductive LoopExit where
  | finished (elses : List Component) (branches : Nat) (s : Env)
  | left (s : Env) (o : Outcome)

/-- The loop of `Conditions.Init` (template.go 108-130) over the entries still
to visit, `i` being the index of the first of them. -/
def Conditions.loop : List Condition → Nat → List Component → Nat → Env → LoopExit
  | [], _, elses, branches, s => LoopExit.finished elses branches s
  | tc :: rest, i, elses, branches, s =>
    match tc.Condition with
    | none =>
      match tc.Content with
      | some content => Conditions.loop rest (i + 1) (elses ++ [content]) branches s
      | none => Conditions.loop rest (i + 1) elses branches s
    | some cond =>
      let pfx := if branches > 0 then "else " else ""
      let (id, s1) := s.NewFunctionID cond
      let s2 := s1.Funcs id cond
      match Raw.Init ("\x7b\x7b" ++ pfx ++ tc.ConditionString id ++ "\x7d\x7d") s2 with
      | (s3, Outcome.error e) =>
        LoopExit.left s3
          (Outcome.error (Error.wrap ("failed to write Conditions[" ++ toString i ++ "]") e))
      | (s3, Outcome.panic) => LoopExit.left s3 Outcome.panic
      | (s3, Outcome.ok) =>
        match callInit tc.Content s3 with
        | (s4, Outcome.error e) =>
          LoopExit.left s4 (Outcome.error
            (Error.wrap ("failed to write Conditions[" ++ toString i ++ "].Content") e))
        | (s4, Outcome.panic) => LoopExit.left s4 Outcome.panic
        | (s4, Outcome.ok) => Conditions.loop rest (i + 1) elses (branches + 1) s4

/-- The statement `if branches > 0 { Raw("{{end}}").Init(f, w) ... }; return nil`
(template.go 142-147). -/
def Conditions.close (branches : Nat) : Component := fun s =>
  if branches > 0 then
    match Raw.Init "\x7b\x7bend\x7d\x7d" s with
    | (s1, Outcome.error e) =>
      (s1, Outcome.error (Error.wrap "failed to write Conditions termination" e))
    | (s1, Outcome.panic) => (s1, Outcome.panic)
    | (s1, Outcome.ok) => (s1, Outcome.ok)
  else (s, Outcome.ok)

/-- The code after the loop of `Conditions.Init` (template.go 132-147).  The call
`elses.Init(f, w)` of line 139 is a bare statement: its error is dropped, only a
panic would get through. -/
def Conditions.finish (elses : List Component) (branches : Nat) : Component := fun s =>
  if elses.length > 0 then
    if branches > 0 then
      match Raw.Init "\x7b\x7belse\x7d\x7d" s with
      | (s1, Outcome.error e) =>
        (s1, Outcome.error (Error.wrap "failed to write Conditions else" e))
      | (s1, Outcome.panic) => (s1, Outcome.panic)
      | (s1, Outcome.ok) =>
        match Fragment.Init elses s1 with
        | (s2, Outcome.panic) => (s2, Outcome.panic)
        | (s2, _) => Conditions.close branches s2
    else
      match Fragment.Init elses s with
      | (s2, Outcome.panic) => (s2, Outcome.panic)
      | (s2, _) => Conditions.close branches s2
  else Conditions.close branches s

/-- `Conditions.Init` (template.go 96-148). -/
def Conditions.Init (tcs : Conditions) : Component := fun s =>
  if !s.CanTemplate then (s, Outcome.error Error.ErrCannotTemplate) else
  match tcs with
  | [] => (s, Outcome.ok)
  | [tc] => tc.Init s
  | _ =>
    match Conditions.loop tcs 0 [] 0 s with
    | LoopExit.left s1 o => (s1, o)
    | LoopExit.finished elses branches s1 => Conditions.finish elses branches s1

/-! ## The chain as the specification words it -/

/-- One thing a chain does, as the specification lists them. -/
inductive Step where
  /-- Allocate an identifier for `cond`, register it, and write the guard
  directive `opening ++ id ++ " $r}}"`. -/
  | guard (opening : String) (cond : Callback)
  /-- Compile a content subtree. -/
  | content (c : Component)
  /-- Write a directive that names no identifier. -/
  | directive (text : String)

/-- Perform one step; `none` when its write or its child fails. -/
def Step.run : Step → Env → Option Env
  | Step.guard opening cond, s =>
    match ((s.NewFunctionID cond).2.Funcs (s.NewFunctionID cond).1 cond).Write
        (opening ++ (s.NewFunctionID cond).1 ++ " $r\x7d\x7d") with
    | (s1, none) => some s1
    | (_, some _) => none
  | Step.content c, s =>
    match c s with
    | (s1, Outcome.ok) => some s1
    | (_, _) => none
  | Step.directive text, s =>
    match s.Write text with
    | (s1, none) => some s1
    | (_, some _) => none

/-- Perform steps in order, every one of them succeeding. -/
def runSteps : List Step → Env → Option Env
  | [], s => some s
  | st :: rest, s =>
    match st.run s with
    | some s1 => runSteps rest s1
    | none => none

/-- The guard and content of each further guarded entry: `else if`. -/
def elseIfSteps : List (Callback × Component) → List Step
  | [] => []
  | (cond, c) :: more =>
    Step.guard "\x7b\x7belse if " cond :: Step.content c :: elseIfSteps more

/-- The trailing fallback block: `else` and the merged contents, when there are any. -/
def elseSteps (fallback : List Component) : List Step :=
  if fallback.length > 0 then
    Step.directive "\x7b\x7belse\x7d\x7d" :: fallback.map Step.content
  else []

/-- The steps of a chain with guarded entries `guarded` (in input order) and
fallback contents `fallback` (in input order), following the specification: one
opening `if` guard with the first content, an `else if` guard with its content
for each further guarded entry, one `else` with the fallback contents when there
are any, one closing `end`. -/
def chainSteps (guarded : List (Callback × Component)) (fallback : List Component) :
    List Step :=
  match guarded with
  | [] => []
  | (cond, c) :: more =>
    Step.guard "\x7b\x7bif " cond :: Step.content c :: elseIfSteps more
      ++ elseSteps fallback ++ [Step.directive "\x7b\x7bend\x7d\x7d"]

/-- The entries of a chain that have both a predicate and content, in input order. -/
def guardedOf (tcs : Conditions) : List (Callback × Component) :=
  tcs.filterMap fun tc =>
    match tc.Condition, tc.Content with
    | some cond, some c => some (cond, c)
    | _, _ => none

/-- The contents of the predicate-less entries of a chain, in input order. -/
def fallbackOf (tcs : Conditions) : List Component :=
  tcs.filterMap fun tc =>
    match tc.Condition with
    | none => tc.Content
    | some _ => none

/-- The guarded steps as the loop meets them: the first one written opens with
`if`, that is when no branch was written before. -/
def guardSteps : Nat → List (Callback × Component) → List Step
  | _, [] => []
  | branches, (cond, c) :: more =>
    Step.guard (if branches > 0 then "\x7b\x7belse if " else "\x7b\x7bif ") cond
      :: Step.content c :: guardSteps (branches + 1) more

/-- An outcome with an error replaced by its underlying cause. -/
def Outcome.cause : Outcome → Outcome
  | Outcome.error e => Outcome.error e.root
  | o => o

/-- A loop exit with the error of an early return replaced by its cause. -/
def LoopExit.cause : LoopExit → LoopExit
  | LoopExit.finished elses branches s => LoopExit.finished elses branches s
  | LoopExit.left s o => LoopExit.left s o.cause

/-- What `Conditions.Init` does with the exit of its loop. -/
def Conditions.afterLoop : LoopExit → Env × Outcome
  | LoopExit.left s o => (s, o)
  | LoopExit.finished elses branches s => Conditions.finish elses branches s

/-- The chunk `text` is a directive that names the identifier `id`: one of
`{{with id $r}}`, `{{if id $r}}`, `{{else if id $r}}`, `{{Name := id $r}}`. -/
def Names (text id : String) : Prop :=
  text = "\x7b\x7bwith " ++ id ++ " $r\x7d\x7d"
  ∨ text = "\x7b\x7bif " ++ id ++ " $r\x7d\x7d"
  ∨ text = "\x7b\x7belse if " ++ id ++ " $r\x7d\x7d"
  ∨ ∃ name : String, text = "\x7b\x7b" ++ name ++ " := " ++ id ++ " $r\x7d\x7d"

/-- The trees of `Variable`, `With`, `Condition`, `Conditions`, sequential
(`Fragment`) and literal (`Raw`) nodes whose literal nodes carry texts in `lit`.
Contents may be nil. -/
inductive Tree (lit : String → Prop) : Component → Prop where
  | raw (text : String) : lit text → Tree lit (Raw.Init text)
  | fragment (cs : List Component) : (∀ c ∈ cs, Tree lit c) → Tree lit (Fragment.Init cs)
  | binding (tv : Variable) : Tree lit tv.Init
  | scope (t : With) : (∀ c, t.Content = some c → Tree lit c) → Tree lit t.Init
  | condition (tc : Condition) : (∀ c, tc.Content = some c → Tree lit c) → Tree lit tc.Init
  | chain (tcs : Conditions) :
    (∀ tc ∈ tcs, ∀ c, tc.Content = some c → Tree lit c) → Tree lit (Conditions.Init tcs)

/-- Every write among the events `ev` is the text of a literal node, or a
directive without identifier, or a directive naming an identifier that an
earlier event of `ev` registered. -/
def Referenced (lit : String → Prop) (ev : List Event) : Prop :=
  ∀ (before : List Event) (text : String) (after : List Event),
    ev = before ++ Event.wrote text :: after →
      lit text ∨ text = "\x7b\x7belse\x7d\x7d" ∨ text = "\x7b\x7bend\x7d\x7d"
      ∨ ∃ id, Names text id ∧ ∃ fn, Event.registered id fn ∈ before

/-- The context `s1` has the trace of `s` extended by well-referenced events. -/
def Extends (lit : String → Prop) (s s1 : Env) : Prop :=
  ∃ ev, s1.trace = s.trace ++ ev ∧ Referenced lit ev

/-- Every run of the component extends the trace by well-referenced events. -/
def Sound (lit : String → Prop) (c : Component) : Prop :=
  ∀ s, Extends lit s (c s).1

/-- What soundness asks of a loop exit reached from `s`: the trace was extended
by well-referenced events, and the contents collected in `elses` are sound. -/
def LoopExit.SoundFrom (lit : String → Prop) (s : Env) : LoopExit → Prop
  | LoopExit.finished elses _ s1 => Extends lit s s1 ∧ ∀ c ∈ elses, Sound lit c
  | LoopExit.left s1 _ => Extends lit s s1

/-! ## Growth of the registry -/

/-- A relation between the context before and the context after that holds
across no step at all, composes, and holds across the two primitive steps of the
components: a literal write, and the allocation and registration of an
identifier followed by the write of a directive. -/
def Stepwise (R : Env → Env → Prop) : Prop :=
  (∀ s, R s s)
  ∧ (∀ a b c, R a b → R b c → R a c)
  ∧ (∀ s text, R s (Raw.Init text s).1)
  ∧ (∀ s fn text,
      R s (Raw.Init text ((s.NewFunctionID fn).2.Funcs (s.NewFunctionID fn).1 fn)).1)

/-- What stepwise preservation asks of a loop exit reached from `s`. -/
def LoopExit.Related (R : Env → Env → Prop) (s : Env) : LoopExit → Prop
  | LoopExit.finished elses _ s1 => R s s1 ∧ ∀ c ∈ elses, ∀ x, R x (c x).1
  | LoopExit.left s1 _ => R s s1

/-- The identifiers the generator returns when it serves the callbacks `served`
in order, after `issued` were served. -/
def issuedIds (naming : List Callback → Callback → String) :
    List Callback → List Callback → List String
  | _, [] => []
  | issued, fn :: rest => naming issued fn :: issuedIds naming (issued ++ [fn]) rest

/-- From `s` to `s1` the generator served some callbacks, the trace was only
appended to, and every registration appended is under an identifier the
generator returned in between. -/
def Grows (s s1 : Env) : Prop :=
  s1.generator.naming = s.generator.naming
  ∧ ∃ served ev, s1.generator.issued = s.generator.issued ++ served
      ∧ s1.trace = s.trace ++ ev
      ∧ ∀ id fn, Event.registered id fn ∈ ev →
          id ∈ issuedIds s.generator.naming s.generator.issued served

/-! ## Nesting of the written directives -/

/-- A block that is open at some point of the output. -/
inductive Block where
  /-- An `if` block whose `else` has not been written. -/
  | ifOpen
  /-- An `if` block after its `else`. -/
  | ifElse
  /-- A `with` block. -/
  | withOpen
deriving DecidableEq, Repr

/-- Whether `text` begins with `start`. -/
def beginsWith (start text : String) : Bool := start.toList.isPrefixOf text.toList

/-- The effect of one written chunk on the stack of open blocks, innermost
first; `none` when the chunk is a directive that is out of place: an `end` with
no open block, an `else` or `else if` that is not directly inside an `if` block
still waiting for its `else`. -/
def nestStep (stack : List Block) (text : String) : Option (List Block) :=
  if text = "\x7b\x7bend\x7d\x7d" then
    match stack with
    | [] => none
    | _ :: outer => some outer
  else if text = "\x7b\x7belse\x7d\x7d" then
    match stack with
    | Block.ifOpen :: outer => some (Block.ifElse :: outer)
    | _ => none
  else if beginsWith "\x7b\x7belse if " text then
    match stack with
    | Block.ifOpen :: outer => some (Block.ifOpen :: outer)
    | _ => none
  else if beginsWith "\x7b\x7bif " text then some (Block.ifOpen :: stack)
  else if beginsWith "\x7b\x7bwith " text then some (Block.withOpen :: stack)
  else some stack

/-- The stack of open blocks after a sequence of chunks, if none is out of place. -/
def nestRun : List Block → List String → Option (List Block)
  | stack, [] => some stack
  | stack, text :: rest =>
    match nestStep stack text with
    | some next => nestRun next rest
    | none => none

/-- The written chunks are well nested: no directive is out of place and no
block is left open. -/
def wellNested (chunks : List String) : Bool := nestRun [] chunks == some []

/-- The chunk is no block directive: it leaves every stack of open blocks as it is. -/
def Plain (text : String) : Prop := ∀ stack, nestStep stack text = some stack

/-- The trees of the six node kinds whose literals, and whose binding
directives, are no block directives, and in which every chain entry that has a
predicate has content. -/
inductive NestTree : Component → Prop where
  | raw (text : String) : Plain text → NestTree (Raw.Init text)
  | fragment (cs : List Component) : (∀ c ∈ cs, NestTree c) → NestTree (Fragment.Init cs)
  | binding (tv : Variable) :
    (∀ id : String, Plain ("\x7b\x7b" ++ tv.Name ++ " := " ++ id ++ " $r\x7d\x7d")) →
      NestTree tv.Init
  | scope (t : With) : (∀ c, t.Content = some c → NestTree c) → NestTree t.Init
  | condition (tc : Condition) : (∀ c, tc.Content = some c → NestTree c) → NestTree tc.Init
  | chain (tcs : Conditions) :
    (∀ tc ∈ tcs, tc.Condition ≠ none → tc.Content ≠ none) →
    (∀ tc ∈ tcs, ∀ c, tc.Content = some c → NestTree c) → NestTree (Conditions.Init tcs)

/-- Templating is enabled and the writer accepts every coming write. -/
def Clean (s : Env) : Prop := s.CanTemplate = true ∧ ∀ x ∈ s.faults, x = none

/-- From `s` to `s1` the chunks written lead from the stack `start` of open
blocks to the stack `stop`, and `s1` is clean. -/
def Reaches (s s1 : Env) (start stop : List Block) : Prop :=
  Clean s1 ∧ ∃ chunks, chunksOf s1.trace = chunksOf s.trace ++ chunks
    ∧ nestRun start chunks = some stop

/-- From every clean context the component succeeds and writes chunks that
leave every stack of open blocks as they found it. -/
def Balanced (c : Component) : Prop :=
  ∀ s, Clean s → (c s).2 = Outcome.ok ∧ ∀ stack, Reaches s (c s).1 stack stack

/-- The stack of open blocks inside the loop of a chain entered with `stack`:
the chain has its `if` block open once a branch was written. -/
def inChain (branches : Nat) (stack : List Block) : List Block :=
  if branches > 0 then Block.ifOpen :: stack else stack

/-- The chain without its inert entries, the entries whose predicate and content
are both nil. -/
def withoutInert (tcs : Conditions) : Conditions :=
  tcs.filter (fun tc => tc.Condition.isSome || tc.Content.isSome)

/-! ## Concrete inputs -/

/-- A generator that numbers its identifiers `id1`, `id2`, ... -/
def gen0 : Generator := ⟨[], fun issued _ => "id" ++ toString (issued.length + 1)⟩

/-- A fresh context with templating enabled and a writer that accepts everything. -/
def env0 : Env := ⟨true, gen0, [], []⟩

/-- A fresh context with templating disabled. -/
def envOff : Env := ⟨false, gen0, [], []⟩

/-- The chain of the specification's scenario, with predicates `isAdmin = 10`
and `isOwner = 11`. -/
def chainABCD : Conditions :=
  [⟨some 10, some (Raw.Init "A")⟩, ⟨none, some (Raw.Init "B")⟩,
   ⟨some 11, some (Raw.Init "C")⟩, ⟨none, some (Raw.Init "D")⟩]

/-- The context `env0` after the scenario chain was compiled into it. -/
def envABCD : Env :=
  ⟨true, ⟨[10, 11], gen0.naming⟩,
   [Event.registered "id1" 10, Event.wrote "\x7b\x7bif id1 $r\x7d\x7d", Event.wrote "A",
    Event.registered "id2" 11, Event.wrote "\x7b\x7belse if id2 $r\x7d\x7d", Event.wrote "C",
    Event.wrote "\x7b\x7belse\x7d\x7d", Event.wrote "B", Event.wrote "D",
    Event.wrote "\x7b\x7bend\x7d\x7d"], []⟩

/-- A pure-fallback chain, with an inert entry in the middle. -/
def chainBD : Conditions :=
  [⟨none, some (Raw.Init "B")⟩, ⟨none, none⟩, ⟨none, some (Raw.Init "D")⟩]

/-- The context `env0` after `chainBD` was compiled into it. -/
def envBD : Env := ⟨true, gen0, [Event.wrote "B", Event.wrote "D"], []⟩

/-- A guarded entry with literal content. -/
def condA : Condition := ⟨some 10, some (Raw.Init "A")⟩

/-- The context `env0` after the guard of `condA` was written. -/
def envA3 : Env :=
  ⟨true, ⟨[10], gen0.naming⟩,
   [Event.registered "id1" 10, Event.wrote "\x7b\x7bif id1 $r\x7d\x7d"], []⟩

/-- The context `env0` after the content of `condA` was written. -/
def envA4 : Env :=
  ⟨true, ⟨[10], gen0.naming⟩,
   [Event.registered "id1" 10, Event.wrote "\x7b\x7bif id1 $r\x7d\x7d", Event.wrote "A"], []⟩

/-- The context `env0` after `condA` was compiled into it. -/
def envA5 : Env :=
  ⟨true, ⟨[10], gen0.naming⟩,
   [Event.registered "id1" 10, Event.wrote "\x7b\x7bif id1 $r\x7d\x7d", Event.wrote "A",
    Event.wrote "\x7b\x7bend\x7d\x7d"], []⟩

/-- A writer whose first `Write` fails and whose later ones succeed. -/
def envFailFirst : Env := ⟨true, gen0, [], [some "write failed"]⟩

/-- A guarded entry followed by a fallback entry. -/
def chainAB : Conditions := [⟨some 10, some (Raw.Init "A")⟩, ⟨none, some (Raw.Init "B")⟩]

/-- A writer whose fourth `Write` fails and whose other ones succeed. -/
def envFailFourth : Env := ⟨true, gen0, [], [none, none, none, some "write failed"]⟩

/-- A chain whose first entry has a predicate and nil content. -/
def chainNilContent : Conditions := [⟨some 10, none⟩, ⟨some 11, some (Raw.Init "A")⟩]

/-- A guarded entry followed by a fallback entry whose content is a `With` block. -/
def chainWithFallback : Conditions :=
  [⟨some 10, some (Raw.Init "A")⟩, ⟨none, some (With.Init ⟨11, some (Raw.Init "X")⟩)⟩]

/-- A writer whose fifth `Write` fails and whose other ones succeed. -/
def envFailFifth : Env :=
  ⟨true, gen0, [], [none, none, none, none, some "write failed"]⟩

/-- The literal texts of `chainWithFallback`. -/
def litAX (text : String) : Prop := text = "A" ∨ text = "X"

/-- An entry without predicate, with literal content. -/
def condX : Condition := ⟨none, some (Raw.Init "X")⟩

/-- An entry with a predicate and nil content. -/
def condNil : Condition := ⟨some 10, none⟩

/-- A scope node around a literal. -/
def withX : With := ⟨11, some (Raw.Init "X")⟩

/-- The context `env0` after the opening directive of `withX` was written. -/
def envW3 : Env :=
  ⟨true, ⟨[11], gen0.naming⟩,
   [Event.registered "id1" 11, Event.wrote "\x7b\x7bwith id1 $r\x7d\x7d"], []⟩

/-- The context `env0` after the content of `withX` was written. -/
def envW4 : Env :=
  ⟨true, ⟨[11], gen0.naming⟩,
   [Event.registered "id1" 11, Event.wrote "\x7b\x7bwith id1 $r\x7d\x7d", Event.wrote "X"], []⟩

/-- The context `env0` after `withX` was compiled into it. -/
def envW5 : Env :=
  ⟨true, ⟨[11], gen0.naming⟩,
   [Event.registered "id1" 11, Event.wrote "\x7b\x7bwith id1 $r\x7d\x7d", Event.wrote "X",
    Event.wrote "\x7b\x7bend\x7d\x7d"], []⟩

/-- A binding node. -/
def varUser : Variable := ⟨"user", 12⟩

/-- The context `env0` after `varUser` was compiled into it. -/
def envV : Env :=
  ⟨true, ⟨[12], gen0.naming⟩,
   [Event.registered "id1" 12, Event.wrote "\x7b\x7buser := id1 $r\x7d\x7d"], []⟩

/-- The context `envFailFirst` after `varUser` was compiled into it: the
registration stands, the write was rejected. -/
def envVFail : Env := ⟨true, ⟨[12], gen0.naming⟩, [Event.registered "id1" 12], []⟩

/-- A writer whose second `Write` fails and whose other ones succeed. -/
def envFailSecond : Env := ⟨true, gen0, [], [none, some "write failed"]⟩

/-- A writer whose third `Write` fails and whose other ones succeed. -/
def envFailThird : Env := ⟨true, gen0, [], [none, none, some "write failed"]⟩

/-- The context `envFailFirst` after `withX` failed on its opening directive. -/
def envWFail1 : Env := ⟨true, ⟨[11], gen0.naming⟩, [Event.registered "id1" 11], []⟩

/-- The context `envFailSecond` after `withX` failed on its content. -/
def envWFail2 : Env :=
  ⟨true, ⟨[11], gen0.naming⟩,
   [Event.registered "id1" 11, Event.wrote "\x7b\x7bwith id1 $r\x7d\x7d"], []⟩

/-- The context `envFailThird` after `withX` failed on its closing directive. -/
def envWFail3 : Env :=
  ⟨true, ⟨[11], gen0.naming⟩,
   [Event.registered "id1" 11, Event.wrote "\x7b\x7bwith id1 $r\x7d\x7d", Event.wrote "X"], []⟩

/-- The context `envFailSecond` after the opening directive of `withX` was written. -/
def envW3Fail2 : Env :=
  ⟨true, ⟨[11], gen0.naming⟩,
   [Event.registered "id1" 11, Event.wrote "\x7b\x7bwith id1 $r\x7d\x7d"], [some "write failed"]⟩

/-- The context `envFailThird` after the opening directive of `withX` was written. -/
def envW3Fail3 : Env :=
  ⟨true, ⟨[11], gen0.naming⟩,
   [Event.registered "id1" 11, Event.wrote "\x7b\x7bwith id1 $r\x7d\x7d"],
   [none, some "write failed"]⟩

/-- The context `envFailThird` after the content of `withX` was written. -/
def envW4Fail3 : Env :=
  ⟨true, ⟨[11], gen0.naming⟩,
   [Event.registered "id1" 11, Event.wrote "\x7b\x7bwith id1 $r\x7d\x7d", Event.wrote "X"],
   [some "write failed"]⟩

/-- A fallback entry followed by a guarded entry: the guarded entry has index 1. -/
def chainBA : Conditions := [⟨none, some (Raw.Init "B")⟩, ⟨some 10, some (Raw.Init "A")⟩]

/-- The context `envFailFirst` after `chainBA` failed on the guard of entry 1. -/
def envCFail1 : Env := ⟨true, ⟨[10], gen0.naming⟩, [Event.registered "id1" 10], []⟩

/-- The context `envFailSecond` after the guard of entry 1 of `chainBA` was written. -/
def envC3Fail2 : Env :=
  ⟨true, ⟨[10], gen0.naming⟩,
   [Event.registered "id1" 10, Event.wrote "\x7b\x7bif id1 $r\x7d\x7d"], [some "write failed"]⟩

/-- The context `envFailSecond` after `chainBA` failed on the content of entry 1. -/
def envCFail2 : Env :=
  ⟨true, ⟨[10], gen0.naming⟩,
   [Event.registered "id1" 10, Event.wrote "\x7b\x7bif id1 $r\x7d\x7d"], []⟩

/-- A context whose registry already holds the callback 99 under the name `old`. -/
def envOld : Env := ⟨true, gen0, [Event.registered "old" 99], []⟩

/-- The context `envFailFourth` after the loop of `chainAB`: the guard and the
content of the first entry are written. -/
def envABLoop : Env :=
  ⟨true, ⟨[10], gen0.naming⟩,
   [Event.registered "id1" 10, Event.wrote "\x7b\x7bif id1 $r\x7d\x7d", Event.wrote "A"],
   [none, some "write failed"]⟩

/-- The context `envFailFourth` after `chainAB` wrote its `else`. -/
def envABElse : Env :=
  ⟨true, ⟨[10], gen0.naming⟩,
   [Event.registered "id1" 10, Event.wrote "\x7b\x7bif id1 $r\x7d\x7d", Event.wrote "A",
    Event.wrote "\x7b\x7belse\x7d\x7d"],
   [some "write failed"]⟩

/-- The context `envFailFourth` after the fallback content of `chainAB` failed. -/
def envABFailed : Env :=
  ⟨true, ⟨[10], gen0.naming⟩,
   [Event.registered "id1" 10, Event.wrote "\x7b\x7bif id1 $r\x7d\x7d", Event.wrote "A",
    Event.wrote "\x7b\x7belse\x7d\x7d"],
   []⟩

/-- The context `envFailFourth` after `chainAB` was compiled into it. -/
def envABEnd : Env :=
  ⟨true, ⟨[10], gen0.naming⟩,
   [Event.registered "id1" 10, Event.wrote "\x7b\x7bif id1 $r\x7d\x7d", Event.wrote "A",
    Event.wrote "\x7b\x7belse\x7d\x7d", Event.wrote "\x7b\x7bend\x7d\x7d"],
   []⟩

/-- A fallback entry followed by an inert entry. -/
def chainBInert : Conditions := [⟨none, some (Raw.Init "B")⟩, ⟨none, none⟩]

theorem guard_if_text (id : String) :
    "\x7b\x7b" ++ ("if " ++ id ++ " $r") ++ "\x7d\x7d" = "\x7b\x7bif " ++ id ++ " $r\x7d\x7d" := by
  apply String.ext
  simp

theorem runSteps_append (a b : List Step) (s : Env) :
    runSteps (a ++ b) s = (runSteps a s).bind (runSteps b) := by
  induction a generalizing s with
  | nil => simp [runSteps]
  | cons st rest ih =>
    simp only [List.cons_append, runSteps]
    cases h : st.run s with
    | none => simp
    | some s1 => simp [ih]

theorem fragment_of_run (cs : List Component) (s s1 : Env)
    (h : runSteps (cs.map Step.content) s = some s1) :
    Fragment.Init cs s = (s1, Outcome.ok) := by
  induction cs generalizing s with
  | nil => simp [runSteps] at h; simp [Fragment.Init, h]
  | cons c rest ih =>
    simp only [List.map_cons, runSteps, Step.run] at h
    rcases hc : c s with ⟨s2, o⟩
    rw [hc] at h
    cases o with
    | ok => simp at h; simp [Fragment.Init, hc, ih s2 h]
    | error e => simp at h
    | panic => simp at h

theorem raw_of_write (text : String) (s s1 : Env) (h : s.Write text = (s1, none)) :
    Raw.Init text s = (s1, Outcome.ok) := by
  simp [Raw.Init, h]

theorem directive_run (text : String) (s s1 : Env)
    (h : (Step.directive text).run s = some s1) : Raw.Init text s = (s1, Outcome.ok) := by
  simp only [Step.run] at h
  rcases hw : s.Write text with ⟨s2, r⟩
  rw [hw] at h
  cases r with
  | none => simp at h; simp [Raw.Init, hw, h]
  | some e => simp at h

theorem content_run (c : Component) (s s1 : Env)
    (h : (Step.content c).run s = some s1) : c s = (s1, Outcome.ok) := by
  simp only [Step.run] at h
  rcases hc : c s with ⟨s2, o⟩
  rw [hc] at h
  cases o <;> simp at h
  simp [h]

theorem guard_run (opening : String) (cond : Callback) (s s1 : Env)
    (h : (Step.guard opening cond).run s = some s1) :
    Raw.Init (opening ++ (s.NewFunctionID cond).1 ++ " $r\x7d\x7d")
      ((s.NewFunctionID cond).2.Funcs (s.NewFunctionID cond).1 cond) = (s1, Outcome.ok) := by
  simp only [Step.run] at h
  rcases hw : ((s.NewFunctionID cond).2.Funcs (s.NewFunctionID cond).1 cond).Write
      (opening ++ (s.NewFunctionID cond).1 ++ " $r\x7d\x7d") with ⟨s2, r⟩
  rw [hw] at h
  cases r with
  | none => simp at h; simp [Raw.Init, hw, h]
  | some e => simp at h

theorem loop_guard_text (branches : Nat) (tc : Condition) (id : String) :
    "\x7b\x7b" ++ (if branches > 0 then "else " else "") ++ tc.ConditionString id ++ "\x7d\x7d"
      = (if branches > 0 then "\x7b\x7belse if " else "\x7b\x7bif ") ++ id ++ " $r\x7d\x7d" := by
  unfold Condition.ConditionString
  split
  · apply String.ext; simp
  · apply String.ext; simp

theorem loop_of_run (tcs : Conditions) :
    ∀ (i : Nat) (elses : List Component) (branches : Nat) (s s1 : Env),
      (∀ tc ∈ tcs, tc.Condition ≠ none → tc.Content ≠ none) →
      runSteps (guardSteps branches (guardedOf tcs)) s = some s1 →
      Conditions.loop tcs i elses branches s
        = LoopExit.finished (elses ++ fallbackOf tcs)
            (branches + (guardedOf tcs).length) s1 := by
  induction tcs with
  | nil =>
    intro i elses branches s s1 _ h
    simp [guardedOf, guardSteps, runSteps] at h
    simp [Conditions.loop, fallbackOf, guardedOf, h]
  | cons tc rest ih =>
    intro i elses branches s s1 hc h
    have hrest : ∀ tc ∈ rest, tc.Condition ≠ none → tc.Content ≠ none :=
      fun x hx => hc x (List.mem_cons_of_mem _ hx)
    rcases tc with ⟨cond, content⟩
    cases cond with
    | none =>
      cases content with
      | none =>
        have hg : guardedOf (⟨none, none⟩ :: rest) = guardedOf rest := by
          simp [guardedOf]
        have hf : fallbackOf (⟨none, none⟩ :: rest) = fallbackOf rest := by
          simp [fallbackOf]
        rw [hg] at h
        rw [hg, hf]
        simp only [Conditions.loop]
        exact ih _ _ _ _ _ hrest h
      | some c =>
        have hg : guardedOf (⟨none, some c⟩ :: rest) = guardedOf rest := by
          simp [guardedOf]
        have hf : fallbackOf (⟨none, some c⟩ :: rest) = c :: fallbackOf rest := by
          simp [fallbackOf]
        rw [hg] at h
        rw [hg, hf]
        simp only [Conditions.loop]
        rw [ih _ _ _ _ _ hrest h]
        simp
    | some p =>
      cases content with
      | none => exact absurd rfl (hc ⟨some p, none⟩ (List.mem_cons_self _ _) (by simp))
      | some c =>
        have hg : guardedOf (⟨some p, some c⟩ :: rest) = (p, c) :: guardedOf rest := by
          simp [guardedOf]
        have hf : fallbackOf (⟨some p, some c⟩ :: rest) = fallbackOf rest := by
          simp [fallbackOf]
        rw [hg] at h
        rw [hg, hf]
        simp only [guardSteps, runSteps] at h
        cases h1 : (Step.guard (if branches > 0 then "\x7b\x7belse if " else "\x7b\x7bif ") p).run s with
        | none => simp [h1] at h
        | some s3 =>
          rw [h1] at h
          simp only at h
          cases h2 : (Step.content c).run s3 with
          | none => simp [h2] at h
          | some s4 =>
            rw [h2] at h
            simp only at h
            have e1 := guard_run _ _ _ _ h1
            have e2 := content_run _ _ _ h2
            simp only [Conditions.loop, loop_guard_text, e1, callInit, e2]
            rw [ih _ _ _ _ _ hrest h]
            simp [Nat.add_assoc, Nat.add_comm 1]

theorem init_long (a b : Condition) (rest : List Condition) (s : Env)
    (hT : s.CanTemplate = true) :
    Conditions.Init (a :: b :: rest) s
      = match Conditions.loop (a :: b :: rest) 0 [] 0 s with
        | LoopExit.left s1 o => (s1, o)
        | LoopExit.finished elses branches s1 => Conditions.finish elses branches s1 := by
  simp [Conditions.Init, hT]

theorem close_of_run (branches : Nat) (s s1 : Env) (hb : branches > 0)
    (h : runSteps [Step.directive "\x7b\x7bend\x7d\x7d"] s = some s1) :
    Conditions.close branches s = (s1, Outcome.ok) := by
  simp only [runSteps] at h
  cases h1 : (Step.directive "\x7b\x7bend\x7d\x7d").run s with
  | none => simp [h1] at h
  | some s2 =>
    rw [h1] at h
    simp only [Option.some.injEq] at h
    subst h
    simp [Conditions.close, hb, directive_run _ _ _ h1]

theorem finish_of_run (elses : List Component) (branches : Nat) (s s1 : Env)
    (hb : branches > 0)
    (h : runSteps (elseSteps elses ++ [Step.directive "\x7b\x7bend\x7d\x7d"]) s = some s1) :
    Conditions.finish elses branches s = (s1, Outcome.ok) := by
  rw [runSteps_append] at h
  cases h1 : runSteps (elseSteps elses) s with
  | none => simp [h1] at h
  | some s2 =>
    rw [h1] at h
    simp only [Option.some_bind] at h
    unfold Conditions.finish
    by_cases hl : elses.length > 0
    · simp only [elseSteps, hl, if_true, runSteps] at h1
      cases h3 : (Step.directive "\x7b\x7belse\x7d\x7d").run s with
      | none => simp [h3] at h1
      | some s3 =>
        rw [h3] at h1
        simp only at h1
        simp only [hl, hb, if_true, directive_run _ _ _ h3, fragment_of_run _ _ _ h1]
        exact close_of_run _ _ _ hb h
    · simp only [elseSteps, hl, if_false, runSteps, Option.some.injEq] at h1
      subst h1
      simp only [hl, if_false]
      exact close_of_run _ _ _ hb h

theorem guardSteps_succ (n : Nat) (more : List (Callback × Component)) :
    guardSteps (n + 1) more = elseIfSteps more := by
  induction more generalizing n with
  | nil => simp [guardSteps, elseIfSteps]
  | cons g rest ih =>
    rcases g with ⟨cond, c⟩
    simp only [guardSteps, elseIfSteps, ih]
    simp

theorem chainSteps_eq (g : Callback × Component) (more : List (Callback × Component))
    (fallback : List Component) :
    chainSteps (g :: more) fallback
      = guardSteps 0 (g :: more)
          ++ (elseSteps fallback ++ [Step.directive "\x7b\x7bend\x7d\x7d"]) := by
  rcases g with ⟨cond, c⟩
  simp [chainSteps, guardSteps, guardSteps_succ]

/-- C1: a chain with templating enabled, whose guarded entries all have content
and of which at least one entry is guarded, does exactly what the specification
lists, whenever every write and every child succeeds: one `if` guard (identifier
allocated, registered, directive written) and the first guarded content, an
`else if` guard and content per further guarded entry in input order, one `else`
and the fallback contents if and only if there are any, one `end`.  Chains of a
single entry are included. -/
theorem C1_chain_directive_sequence (tcs : Conditions) (s s1 : Env)
    (hT : s.CanTemplate = true)
    (hc : ∀ tc ∈ tcs, tc.Condition ≠ none → tc.Content ≠ none)
    (hk : 1 ≤ (guardedOf tcs).length)
    (hrun : runSteps (chainSteps (guardedOf tcs) (fallbackOf tcs)) s = some s1) :
    Conditions.Init tcs s = (s1, Outcome.ok) := by
  match tcs, hc, hk, hrun with
  | [], _, hk, _ => simp [guardedOf] at hk
  | [tc], hc, hk, hrun =>
    rcases tc with ⟨cond, content⟩
    cases cond with
    | none => simp [guardedOf] at hk
    | some p =>
      cases content with
      | none => simp [guardedOf] at hk
      | some c =>
        have hg : guardedOf [⟨some p, some c⟩] = [(p, c)] := by simp [guardedOf]
        have hf : fallbackOf [⟨some p, some c⟩] = [] := by simp [fallbackOf]
        rw [hg, hf] at hrun
        simp only [chainSteps, elseIfSteps, elseSteps, List.length_nil, gt_iff_lt,
          Nat.lt_irrefl, if_false, List.nil_append, runSteps] at hrun
        cases h1 : (Step.guard "\x7b\x7bif " p).run s with
        | none => simp [h1] at hrun
        | some s3 =>
          rw [h1] at hrun
          simp only at hrun
          cases h2 : (Step.content c).run s3 with
          | none => simp [h2] at hrun
          | some s4 =>
            rw [h2] at hrun
            simp only at hrun
            cases h3 : (Step.directive "\x7b\x7bend\x7d\x7d").run s4 with
            | none => simp [h3] at hrun
            | some s5 =>
              rw [h3] at hrun
              simp only [Option.some.injEq] at hrun
              subst hrun
              have e1 := guard_run _ _ _ _ h1
              have e2 := content_run _ _ _ h2
              have e3 := directive_run _ _ _ h3
              have hT2 : s.CanTemplate = true := hT
              simp only [Conditions.Init, Condition.Init, hT2, Condition.ConditionString,
                guard_if_text, e1, e2, e3]
              simp
  | a :: b :: rest, hc, hk, hrun =>
    rw [init_long a b rest s hT]
    cases hg : guardedOf (a :: b :: rest) with
    | nil => simp [hg] at hk
    | cons g more =>
      rw [hg, chainSteps_eq, runSteps_append] at hrun
      cases h1 : runSteps (guardSteps 0 (g :: more)) s with
      | none => simp [h1] at hrun
      | some s2 =>
        rw [h1] at hrun
        simp only [Option.some_bind] at hrun
        rw [← hg] at h1
        rw [loop_of_run _ 0 [] 0 s s2 hc h1]
        simp only [List.nil_append]
        exact finish_of_run _ _ _ _ (by omega) hrun

/-- C1 at the scenario chain: the hypotheses hold there and the chain compiles
to the listed directives. -/
theorem C1_chain_directive_sequence_witness :
    Conditions.Init chainABCD env0 = (envABCD, Outcome.ok) :=
  C1_chain_directive_sequence chainABCD env0 envABCD rfl
    (by
      intro tc htc
      simp only [chainABCD, List.mem_cons, List.mem_singleton, List.not_mem_nil, or_false] at htc
      rcases htc with rfl | rfl | rfl | rfl <;> simp)
    (by simp [guardedOf, chainABCD])
    (by rfl)

theorem guardedOf_nil_of_no_predicate (tcs : Conditions)
    (h : ∀ tc ∈ tcs, tc.Condition = none) : guardedOf tcs = [] := by
  induction tcs with
  | nil => simp [guardedOf]
  | cons tc rest ih =>
    have h0 := h tc (List.mem_cons_self _ _)
    have hr := ih (fun x hx => h x (List.mem_cons_of_mem _ hx))
    rcases tc with ⟨cond, content⟩
    simp only at h0
    subst h0
    simp only [guardedOf, List.filterMap_cons] at hr ⊢
    exact hr

/-- C5: a chain of exactly one entry is that entry: `Conditions{c}.Init` returns
the same context (same trace, hence same bytes and registry, and same generator)
and the same result, error values included, as `c.Init`, from every context. -/
theorem C5_single_entry_delegates (c : Condition) (s : Env) :
    Conditions.Init [c] s = c.Init s := by
  unfold Conditions.Init
  cases h : s.CanTemplate <;> simp [Condition.Init, h]

/-- C6: a chain without any predicate and with at least one fallback content,
compiled with templating enabled, does exactly what running the fallback
contents one after the other in input order does, when each of them succeeds:
the chain adds no directive, no identifier and no registration of its own. -/
theorem C6_pure_fallback_chain (tcs : Conditions) (s s1 : Env)
    (hT : s.CanTemplate = true)
    (hk : ∀ tc ∈ tcs, tc.Condition = none)
    (hm : 1 ≤ (fallbackOf tcs).length)
    (hrun : runSteps ((fallbackOf tcs).map Step.content) s = some s1) :
    Conditions.Init tcs s = (s1, Outcome.ok) := by
  match tcs, hk, hm, hrun with
  | [], _, hm, _ => simp [fallbackOf] at hm
  | [tc], hk, hm, hrun =>
    rcases tc with ⟨cond, content⟩
    have h0 := hk ⟨cond, content⟩ (List.mem_singleton.mpr rfl)
    simp only at h0
    subst h0
    cases content with
    | none => simp [fallbackOf] at hm
    | some c =>
      have hf : fallbackOf [⟨none, some c⟩] = [c] := by simp [fallbackOf]
      rw [hf] at hrun
      have e := fragment_of_run [c] s s1 hrun
      simp only [Fragment.Init] at e
      have hT2 : s.CanTemplate = true := hT
      simp only [Conditions.Init, Condition.Init, hT2]
      rcases hc : c s with ⟨s2, o⟩
      rw [hc] at e
      cases o <;> simp_all
  | a :: b :: rest, hk, hm, hrun =>
    rw [init_long a b rest s hT]
    have hg := guardedOf_nil_of_no_predicate _ hk
    have hl := loop_of_run (a :: b :: rest) 0 [] 0 s s
      (fun tc htc hne => absurd (hk tc htc) hne) (by simp [hg, guardSteps, runSteps])
    rw [hl, hg]
    have hlen : (fallbackOf (a :: b :: rest)).length > 0 := hm
    simp only [List.nil_append, List.length_nil, Nat.add_zero, Conditions.finish, hlen,
      if_true, gt_iff_lt, Nat.lt_irrefl, if_false, fragment_of_run _ _ _ hrun, Conditions.close]

/-- C6 at a pure-fallback chain of three entries: the hypotheses hold and the
chain writes `B` then `D` and nothing else. -/
theorem C6_pure_fallback_chain_witness :
    Conditions.Init chainBD env0 = (envBD, Outcome.ok) :=
  C6_pure_fallback_chain chainBD env0 envBD rfl
    (by
      intro tc htc
      simp only [chainBD, List.mem_cons, List.mem_singleton, List.not_mem_nil, or_false] at htc
      rcases htc with rfl | rfl | rfl <;> rfl)
    (by simp [fallbackOf, chainBD])
    (by rfl)

/-- C7: with templating disabled, `Init` of a `Variable`, a `With`, a
`Condition` and a `Conditions` (whatever their fields, nil content, nil
predicate and the empty chain included) returns exactly `ErrCannotTemplate` and
leaves the context as it was: nothing written, nothing allocated, nothing
registered. -/
theorem C7_capability_gate (s : Env) (h : s.CanTemplate = false)
    (tv : Variable) (t : With) (tc : Condition) (tcs : Conditions) :
    tv.Init s = (s, Outcome.error Error.ErrCannotTemplate)
    ∧ t.Init s = (s, Outcome.error Error.ErrCannotTemplate)
    ∧ tc.Init s = (s, Outcome.error Error.ErrCannotTemplate)
    ∧ Conditions.Init tcs s = (s, Outcome.error Error.ErrCannotTemplate) := by
  refine ⟨?_, ?_, ?_, ?_⟩
  · simp [Variable.Init, h]
  · simp [With.Init, h]
  · simp [Condition.Init, h]
  · simp [Conditions.Init, h]

/-- C7 at a context with templating disabled, for nodes with nil content and for
the empty chain. -/
theorem C7_capability_gate_witness :
    (Variable.mk "x" 1).Init envOff = (envOff, Outcome.error Error.ErrCannotTemplate)
    ∧ (With.mk 2 none).Init envOff = (envOff, Outcome.error Error.ErrCannotTemplate)
    ∧ (Condition.mk none none).Init envOff = (envOff, Outcome.error Error.ErrCannotTemplate)
    ∧ Conditions.Init [] envOff = (envOff, Outcome.error Error.ErrCannotTemplate) :=
  C7_capability_gate envOff rfl (Variable.mk "x" 1) (With.mk 2 none) (Condition.mk none none) []

theorem lookupFunc_append (a b : List Event) (x : String) :
    lookupFunc (a ++ b) x
      = match lookupFunc b x with
        | some g => some g
        | none => lookupFunc a x := by
  induction a with
  | nil =>
    simp only [List.nil_append, lookupFunc]
    cases lookupFunc b x <;> rfl
  | cons e rest ih =>
    rw [List.cons_append]
    cases e with
    | registered id fn =>
      simp only [lookupFunc]
      rw [ih]
      cases lookupFunc b x <;> simp
    | wrote text =>
      simp only [lookupFunc]
      rw [ih]

theorem write_accepted (s s1 : Env) (text : String) (h : s.Write text = (s1, none)) :
    s1.trace = s.trace ++ [Event.wrote text] ∧ s1.generator = s.generator
      ∧ s1.canTemplate = s.canTemplate := by
  unfold Env.Write at h
  split at h
  · simp only [Prod.mk.injEq, and_true] at h
    subst h
    simp
  · simp only [Prod.mk.injEq, and_true] at h
    subst h
    simp
  · simp at h

/-- C10: a `Condition` with a predicate and with content, compiled with
templating enabled while the two directive writes and the content succeed:
`Init` succeeds; one identifier is allocated for the predicate; it is registered
for the predicate and then the guard naming it is written, so that the context
the content starts from extends the initial one by exactly that registration and
that write; after the content exactly the closing directive is written.
`ConditionString(id)` is `if ` followed by `id` followed by ` $r`. -/
theorem C10_condition_guarded_block (tc : Condition) (cond : Callback) (content : Component)
    (s s3 s4 s5 : Env) (hT : s.CanTemplate = true)
    (hp : tc.Condition = some cond) (hcontent : tc.Content = some content)
    (hw1 : ((s.NewFunctionID cond).2.Funcs (s.NewFunctionID cond).1 cond).Write
        ("\x7b\x7bif " ++ (s.NewFunctionID cond).1 ++ " $r\x7d\x7d") = (s3, none))
    (hc : content s3 = (s4, Outcome.ok))
    (hw2 : s4.Write "\x7b\x7bend\x7d\x7d" = (s5, none)) :
    tc.Init s = (s5, Outcome.ok)
    ∧ s3.generator.issued = s.generator.issued ++ [cond]
    ∧ s3.trace = s.trace ++ [Event.registered (s.NewFunctionID cond).1 cond,
        Event.wrote ("\x7b\x7bif " ++ (s.NewFunctionID cond).1 ++ " $r\x7d\x7d")]
    ∧ s3.lookup (s.NewFunctionID cond).1 = some cond
    ∧ s5.trace = s4.trace ++ [Event.wrote "\x7b\x7bend\x7d\x7d"]
    ∧ s5.generator = s4.generator
    ∧ tc.ConditionString (s.NewFunctionID cond).1 = "if " ++ (s.NewFunctionID cond).1 ++ " $r" := by
  have a1 := write_accepted _ _ _ hw1
  have a2 := write_accepted _ _ _ hw2
  have htr : s3.trace = s.trace ++ [Event.registered (s.NewFunctionID cond).1 cond,
      Event.wrote ("\x7b\x7bif " ++ (s.NewFunctionID cond).1 ++ " $r\x7d\x7d")] := by
    rw [a1.1]
    simp [Env.Funcs, Env.NewFunctionID]
  refine ⟨?_, ?_, htr, ?_, a2.1, a2.2.1, rfl⟩
  · rcases tc with ⟨p, c⟩
    simp only at hp hcontent
    subst hp hcontent
    have hT2 : s.CanTemplate = true := hT
    have e1 := raw_of_write _ _ _ hw1
    have e3 := raw_of_write _ _ _ hw2
    simp only [Condition.Init, hT2, Condition.ConditionString, guard_if_text]
    simp [e1, hc, e3]
  · rw [a1.2.1]
    simp [Env.Funcs, Env.NewFunctionID]
  · unfold Env.lookup
    rw [htr, lookupFunc_append]
    simp [lookupFunc]

/-- C10 at a guarded literal: the hypotheses hold and `Init` writes the guard,
the literal and the closing directive. -/
theorem C10_condition_guarded_block_witness :
    condA.Init env0 = (envA5, Outcome.ok)
    ∧ envA3.lookup "id1" = some 10
    ∧ envA5.output = "\x7b\x7bif id1 $r\x7d\x7dA\x7b\x7bend\x7d\x7d" :=
  have h := C10_condition_guarded_block condA 10 (Raw.Init "A") env0 envA3 envA4 envA5
    rfl rfl rfl (by rfl) (by rfl) (by rfl)
  ⟨h.1, h.2.2.2.1, by decide⟩

theorem init_of_two_le (tcs : Conditions) (s : Env) (hT : s.CanTemplate = true)
    (hl : 2 ≤ tcs.length) :
    Conditions.Init tcs s = Conditions.afterLoop (Conditions.loop tcs 0 [] 0 s) := by
  match tcs, hl with
  | [], hl => simp at hl
  | [_], hl => simp at hl
  | a :: b :: rest, _ =>
    rw [init_long a b rest s hT]
    cases Conditions.loop (a :: b :: rest) 0 [] 0 s <;> rfl

theorem afterLoop_cause (l1 l2 : LoopExit) (h : l1.cause = l2.cause) :
    (Conditions.afterLoop l1).1 = (Conditions.afterLoop l2).1
      ∧ (Conditions.afterLoop l1).2.cause = (Conditions.afterLoop l2).2.cause := by
  cases l1 with
  | finished e1 b1 s1 =>
    cases l2 with
    | finished e2 b2 s2 =>
      simp only [LoopExit.cause, LoopExit.finished.injEq] at h
      obtain ⟨rfl, rfl, rfl⟩ := h
      exact ⟨rfl, rfl⟩
    | left s2 o2 => simp [LoopExit.cause] at h
  | left s1 o1 =>
    cases l2 with
    | finished e2 b2 s2 => simp [LoopExit.cause] at h
    | left s2 o2 =>
      simp only [LoopExit.cause, LoopExit.left.injEq] at h
      obtain ⟨rfl, ho⟩ := h
      exact ⟨rfl, ho⟩

/-- C3, evaluated: the merged fallback content of a chain fails and
`Conditions.Init` returns success all the same.  With a writer whose first write
fails, the fallback `Fragment` of `[{nil,B},{nil,nil},{nil,D}]` returns the
writer's error, and the chain returns nil having written nothing.  With a writer
whose fourth write fails, `[{p,A},{nil,B}]` loses `B`, writes the closing
directive after the failure and returns nil. -/
theorem C3_fallback_failure_is_dropped :
    (Fragment.Init (fallbackOf chainBD) envFailFirst).2 = Outcome.error (Error.io "write failed")
    ∧ (Conditions.Init chainBD envFailFirst).2 = Outcome.ok
    ∧ (Conditions.Init chainBD envFailFirst).1.trace = []
    ∧ (Conditions.Init chainAB envFailFourth).2 = Outcome.ok
    ∧ (Conditions.Init chainAB envFailFourth).1.output
        = "\x7b\x7bif id1 $r\x7d\x7dA\x7b\x7belse\x7d\x7d\x7b\x7bend\x7d\x7d" := by
  refine ⟨by decide, by decide, by decide, by decide, by decide⟩

/-- C4, evaluated: in the chain `[{p,nil},{q,A}]` the entry with a predicate and
nil content is not skipped.  An identifier is allocated and registered for `p`,
the guard `{{if id1 $r}}` is written, and the call of `Init` on the nil content
panics; nothing of the second entry is reached.  The same entry compiled alone
by `Condition.Init` is the no-op. -/
theorem C4_nil_content_in_chain_panics :
    (Conditions.Init chainNilContent env0).2 = Outcome.panic
    ∧ (Conditions.Init chainNilContent env0).1.trace
        = [Event.registered "id1" 10, Event.wrote "\x7b\x7bif id1 $r\x7d\x7d"]
    ∧ (Conditions.Init chainNilContent env0).1.generator.issued = [10]
    ∧ ((Condition.mk (some 10) none).Init env0).2 = Outcome.ok
    ∧ ((Condition.mk (some 10) none).Init env0).1.trace = [] := by
  refine ⟨by decide, by decide, by decide, by decide, by decide⟩

/-- C9, evaluated: a successful `Init` that leaves a block open.  The chain
`[{p,A},{nil,With{f,X}}]` is compiled with a writer that rejects the fifth
write, the content `X` of the `With` block, so that the `With` block returns an
error before its `{{end}}`.  The failure of the fallback content is dropped, the
chain writes its own `{{end}}` and returns nil: the output has two block openers
and one `{{end}}`. -/
theorem C9_open_block_after_success :
    (Conditions.Init chainWithFallback envFailFifth).2 = Outcome.ok
    ∧ (Conditions.Init chainWithFallback envFailFifth).1.output
        = "\x7b\x7bif id1 $r\x7d\x7dA\x7b\x7belse\x7d\x7d\x7b\x7bwith id2 $r\x7d\x7d\x7b\x7bend\x7d\x7d"
    ∧ nestRun [] (chunksOf (Conditions.Init chainWithFallback envFailFifth).1.trace)
        = some [Block.ifElse]
    ∧ wellNested (chunksOf (Conditions.Init chainWithFallback envFailFifth).1.trace) = false := by
  refine ⟨by decide, by decide, by decide, by decide⟩

theorem referenced_nil (lit : String → Prop) : Referenced lit [] := by
  intro before text after h
  cases before <;> simp at h

theorem referenced_append (lit : String → Prop) (a b : List Event)
    (ha : Referenced lit a) (hb : Referenced lit b) : Referenced lit (a ++ b) := by
  intro before text after h
  rcases List.append_eq_append_iff.mp h with ⟨a1, h1, h2⟩ | ⟨c1, h1, h2⟩
  · rcases hb a1 text after h2 with hl | hl | hl | ⟨id, hn, fn, hm⟩
    · exact Or.inl hl
    · exact Or.inr (Or.inl hl)
    · exact Or.inr (Or.inr (Or.inl hl))
    · refine Or.inr (Or.inr (Or.inr ⟨id, hn, fn, ?_⟩))
      rw [h1]
      exact List.mem_append_right _ hm
  · cases c1 with
    | nil =>
      simp only [List.append_nil, List.nil_append] at h1 h2
      rcases hb [] text after h2.symm with hl | hl | hl | ⟨id, hn, fn, hm⟩
      · exact Or.inl hl
      · exact Or.inr (Or.inl hl)
      · exact Or.inr (Or.inr (Or.inl hl))
      · simp at hm
    | cons e c2 =>
      simp only [List.cons_append, List.cons.injEq] at h2
      rw [← h2.1] at h1
      exact ha before text c2 h1

theorem referenced_registered (lit : String → Prop) (id : String) (fn : Callback) :
    Referenced lit [Event.registered id fn] := by
  intro before text after h
  cases before with
  | nil => simp at h
  | cons e rest =>
    simp only [List.cons_append, List.cons.injEq] at h
    cases rest <;> simp at h

theorem referenced_plain (lit : String → Prop) (text : String)
    (h : lit text ∨ text = "\x7b\x7belse\x7d\x7d" ∨ text = "\x7b\x7bend\x7d\x7d") :
    Referenced lit [Event.wrote text] := by
  intro before t after h1
  cases before with
  | nil =>
    simp only [List.nil_append, List.cons.injEq, Event.wrote.injEq] at h1
    rw [← h1.1]
    rcases h with hl | hl | hl
    · exact Or.inl hl
    · exact Or.inr (Or.inl hl)
    · exact Or.inr (Or.inr (Or.inl hl))
  | cons e rest =>
    simp only [List.cons_append, List.cons.injEq] at h1
    cases rest <;> simp at h1

theorem referenced_guard (lit : String → Prop) (id text : String) (fn : Callback)
    (h : Names text id) : Referenced lit [Event.registered id fn, Event.wrote text] := by
  intro before t after h1
  cases before with
  | nil => simp at h1
  | cons e rest =>
    simp only [List.cons_append, List.cons.injEq] at h1
    cases rest with
    | nil =>
      simp only [List.nil_append, List.cons.injEq, Event.wrote.injEq] at h1
      refine Or.inr (Or.inr (Or.inr ⟨id, ?_, fn, ?_⟩))
      · rw [← h1.2.1]; exact h
      · rw [← h1.1]; exact List.mem_singleton.mpr rfl
    | cons e2 rest2 =>
      simp only [List.cons_append, List.cons.injEq] at h1
      cases rest2 <;> simp at h1

theorem extends_refl (lit : String → Prop) (s : Env) : Extends lit s s :=
  ⟨[], by simp, referenced_nil lit⟩

theorem extends_trans (lit : String → Prop) (s s1 s2 : Env)
    (h1 : Extends lit s s1) (h2 : Extends lit s1 s2) : Extends lit s s2 := by
  obtain ⟨e1, t1, r1⟩ := h1
  obtain ⟨e2, t2, r2⟩ := h2
  exact ⟨e1 ++ e2, by rw [t2, t1, List.append_assoc], referenced_append lit _ _ r1 r2⟩

theorem write_trace (s : Env) (text : String) :
    (s.Write text).1.trace = s.trace ++ [Event.wrote text] ∨ (s.Write text).1.trace = s.trace := by
  unfold Env.Write
  split
  · exact Or.inl rfl
  · exact Or.inl rfl
  · exact Or.inr rfl

theorem raw_trace (s : Env) (text : String) :
    (Raw.Init text s).1.trace = s.trace ++ [Event.wrote text]
      ∨ (Raw.Init text s).1.trace = s.trace := by
  have h := write_trace s text
  unfold Raw.Init
  rcases hw : s.Write text with ⟨s1, r⟩
  rw [hw] at h
  cases r <;> exact h

theorem extends_raw (lit : String → Prop) (s : Env) (text : String)
    (h : lit text ∨ text = "\x7b\x7belse\x7d\x7d" ∨ text = "\x7b\x7bend\x7d\x7d") :
    Extends lit s (Raw.Init text s).1 := by
  rcases raw_trace s text with ht | ht
  · exact ⟨_, ht, referenced_plain lit text h⟩
  · exact ⟨[], by simp [ht], referenced_nil lit⟩

theorem extends_guard (lit : String → Prop) (s : Env) (fn : Callback) (text : String)
    (h : Names text (s.NewFunctionID fn).1) :
    Extends lit s
      (Raw.Init text ((s.NewFunctionID fn).2.Funcs (s.NewFunctionID fn).1 fn)).1 := by
  have h0 : ((s.NewFunctionID fn).2.Funcs (s.NewFunctionID fn).1 fn).trace
      = s.trace ++ [Event.registered (s.NewFunctionID fn).1 fn] := by
    simp [Env.Funcs, Env.NewFunctionID]
  rcases raw_trace ((s.NewFunctionID fn).2.Funcs (s.NewFunctionID fn).1 fn) text with ht | ht
  · refine ⟨[Event.registered (s.NewFunctionID fn).1 fn, Event.wrote text], ?_,
      referenced_guard lit _ _ _ h⟩
    rw [ht, h0]
    simp
  · exact ⟨[Event.registered (s.NewFunctionID fn).1 fn], by rw [ht, h0],
      referenced_registered lit _ _⟩

theorem sound_raw (lit : String → Prop) (text : String) (h : lit text) :
    Sound lit (Raw.Init text) :=
  fun s => extends_raw lit s text (Or.inl h)

theorem sound_fragment (lit : String → Prop) (cs : List Component)
    (h : ∀ c ∈ cs, Sound lit c) : Sound lit (Fragment.Init cs) := by
  induction cs with
  | nil => intro s; exact extends_refl lit s
  | cons c rest ih =>
    intro s
    have hc := h c (List.mem_cons_self _ _) s
    have hr := ih (fun x hx => h x (List.mem_cons_of_mem _ hx))
    simp only [Fragment.Init]
    rcases h1 : c s with ⟨s1, o⟩
    rw [h1] at hc
    cases o with
    | ok => exact extends_trans lit _ _ _ hc (hr s1)
    | error e => exact hc
    | panic => exact hc

theorem sound_variable (lit : String → Prop) (tv : Variable) : Sound lit tv.Init := by
  intro s
  unfold Variable.Init
  cases hT : s.CanTemplate with
  | false => exact extends_refl lit s
  | true =>
    exact extends_guard lit s tv.Func _ (Or.inr (Or.inr (Or.inr ⟨tv.Name, rfl⟩)))

theorem sound_with (lit : String → Prop) (t : With)
    (h : ∀ c, t.Content = some c → Sound lit c) : Sound lit t.Init := by
  intro s
  unfold With.Init
  cases hT : s.CanTemplate with
  | false => exact extends_refl lit s
  | true =>
    rcases t with ⟨fn, content⟩
    cases content with
    | none => exact extends_refl lit s
    | some c =>
      have hc := h c rfl
      have E3 := extends_guard lit s fn ("\x7b\x7bwith " ++ (s.NewFunctionID fn).1 ++ " $r\x7d\x7d")
        (Or.inl rfl)
      simp only [Bool.not_true, Bool.false_eq_true, if_false]
      rcases h1 : Raw.Init ("\x7b\x7bwith " ++ (s.NewFunctionID fn).1 ++ " $r\x7d\x7d")
        ((s.NewFunctionID fn).2.Funcs (s.NewFunctionID fn).1 fn) with ⟨s3, o3⟩
      rw [h1] at E3
      cases o3 with
      | error e => exact E3
      | panic => exact E3
      | ok =>
        simp only
        have E4 := extends_trans lit _ _ _ E3 (hc s3)
        rcases h2 : c s3 with ⟨s4, o4⟩
        rw [h2] at E4
        cases o4 with
        | error e => exact E4
        | panic => exact E4
        | ok =>
          simp only
          have E5 := extends_trans lit _ _ _ E4
            (extends_raw lit s4 "\x7b\x7bend\x7d\x7d" (Or.inr (Or.inr rfl)))
          rcases h3 : Raw.Init "\x7b\x7bend\x7d\x7d" s4 with ⟨s5, o5⟩
          rw [h3] at E5
          cases o5 <;> exact E5

theorem sound_condition (lit : String → Prop) (tc : Condition)
    (h : ∀ c, tc.Content = some c → Sound lit c) : Sound lit tc.Init := by
  intro s
  unfold Condition.Init
  cases hT : s.CanTemplate with
  | false => exact extends_refl lit s
  | true =>
    rcases tc with ⟨cond, content⟩
    cases content with
    | none => exact extends_refl lit s
    | some c =>
      have hc := h c rfl
      cases cond with
      | none => exact hc s
      | some p =>
        have E3 := extends_guard lit s p ("\x7b\x7bif " ++ (s.NewFunctionID p).1 ++ " $r\x7d\x7d")
          (Or.inr (Or.inl rfl))
        simp only [Bool.not_true, Bool.false_eq_true, if_false, Condition.ConditionString,
          guard_if_text]
        rcases h1 : Raw.Init ("\x7b\x7bif " ++ (s.NewFunctionID p).1 ++ " $r\x7d\x7d")
          ((s.NewFunctionID p).2.Funcs (s.NewFunctionID p).1 p) with ⟨s3, o3⟩
        rw [h1] at E3
        cases o3 with
        | error e => exact E3
        | panic => exact E3
        | ok =>
          simp only
          have E4 := extends_trans lit _ _ _ E3 (hc s3)
          rcases h2 : c s3 with ⟨s4, o4⟩
          rw [h2] at E4
          cases o4 with
          | error e => exact E4
          | panic => exact E4
          | ok =>
            simp only
            have E5 := extends_trans lit _ _ _ E4
              (extends_raw lit s4 "\x7b\x7bend\x7d\x7d" (Or.inr (Or.inr rfl)))
            rcases h3 : Raw.Init "\x7b\x7bend\x7d\x7d" s4 with ⟨s5, o5⟩
            rw [h3] at E5
            cases o5 <;> exact E5

theorem sound_loop (lit : String → Prop) (tcs : Conditions) :
    ∀ (i : Nat) (elses : List Component) (branches : Nat) (s : Env),
      (∀ tc ∈ tcs, ∀ c, tc.Content = some c → Sound lit c) →
      (∀ c ∈ elses, Sound lit c) →
      (Conditions.loop tcs i elses branches s).SoundFrom lit s := by
  induction tcs with
  | nil =>
    intro i elses branches s _ he
    exact ⟨extends_refl lit s, he⟩
  | cons tc rest ih =>
    intro i elses branches s ht he
    have hrest : ∀ tc ∈ rest, ∀ c, tc.Content = some c → Sound lit c :=
      fun x hx => ht x (List.mem_cons_of_mem _ hx)
    have h0 := ht tc (List.mem_cons_self _ _)
    rcases tc with ⟨cond, content⟩
    cases cond with
    | none =>
      cases content with
      | none =>
        simp only [Conditions.loop]
        exact ih _ _ _ _ hrest he
      | some c =>
        simp only [Conditions.loop]
        apply ih _ _ _ _ hrest
        intro x hx
        rcases List.mem_append.mp hx with hx | hx
        · exact he x hx
        · rw [List.mem_singleton.mp hx]
          exact h0 c rfl
    | some p =>
      simp only [Conditions.loop, loop_guard_text]
      have E3 := extends_guard lit s p
        ((if branches > 0 then "\x7b\x7belse if " else "\x7b\x7bif ")
          ++ (s.NewFunctionID p).1 ++ " $r\x7d\x7d")
        (by
          by_cases hb : branches > 0
          · simp only [hb, if_true]; exact Or.inr (Or.inr (Or.inl rfl))
          · simp only [hb, if_false]; exact Or.inr (Or.inl rfl))
      rcases h1 : Raw.Init ((if branches > 0 then "\x7b\x7belse if " else "\x7b\x7bif ")
          ++ (s.NewFunctionID p).1 ++ " $r\x7d\x7d")
          ((s.NewFunctionID p).2.Funcs (s.NewFunctionID p).1 p) with ⟨s3, o3⟩
      rw [h1] at E3
      cases o3 with
      | error e => exact E3
      | panic => exact E3
      | ok =>
        simp only
        have E4 : Extends lit s (callInit content s3).1 := by
          cases content with
          | none => exact E3
          | some c => exact extends_trans lit _ _ _ E3 (h0 c rfl s3)
        rcases h2 : callInit content s3 with ⟨s4, o4⟩
        rw [h2] at E4
        cases o4 with
        | error e => exact E4
        | panic => exact E4
        | ok =>
          simp only
          have hi := ih (i + 1) elses (branches + 1) s4 hrest he
          cases hl : Conditions.loop rest (i + 1) elses (branches + 1) s4 with
          | finished e b s5 =>
            rw [hl] at hi
            exact ⟨extends_trans lit _ _ _ E4 hi.1, hi.2⟩
          | left s5 o5 =>
            rw [hl] at hi
            exact extends_trans lit _ _ _ E4 hi

theorem sound_close (lit : String → Prop) (branches : Nat) (s : Env) :
    Extends lit s (Conditions.close branches s).1 := by
  unfold Conditions.close
  by_cases hb : branches > 0
  · simp only [hb, if_true]
    have E := extends_raw lit s "\x7b\x7bend\x7d\x7d" (Or.inr (Or.inr rfl))
    rcases h : Raw.Init "\x7b\x7bend\x7d\x7d" s with ⟨s1, o⟩
    rw [h] at E
    cases o <;> exact E
  · simp only [hb, if_false]
    exact extends_refl lit s

theorem sound_finish (lit : String → Prop) (elses : List Component) (branches : Nat)
    (he : ∀ c ∈ elses, Sound lit c) (s : Env) :
    Extends lit s (Conditions.finish elses branches s).1 := by
  unfold Conditions.finish
  have hfrag := sound_fragment lit elses he
  by_cases hl : elses.length > 0
  · simp only [hl, if_true]
    by_cases hb : branches > 0
    · simp only [hb, if_true]
      have E1 := extends_raw lit s "\x7b\x7belse\x7d\x7d" (Or.inr (Or.inl rfl))
      rcases h1 : Raw.Init "\x7b\x7belse\x7d\x7d" s with ⟨s1, o1⟩
      rw [h1] at E1
      cases o1 with
      | error e => exact E1
      | panic => exact E1
      | ok =>
        simp only
        have E2 := extends_trans lit _ _ _ E1 (hfrag s1)
        rcases h2 : Fragment.Init elses s1 with ⟨s2, o2⟩
        rw [h2] at E2
        cases o2 with
        | panic => exact E2
        | ok => exact extends_trans lit _ _ _ E2 (sound_close lit branches s2)
        | error e => exact extends_trans lit _ _ _ E2 (sound_close lit branches s2)
    · simp only [hb, if_false]
      have E2 := hfrag s
      rcases h2 : Fragment.Init elses s with ⟨s2, o2⟩
      rw [h2] at E2
      cases o2 with
      | panic => exact E2
      | ok => exact extends_trans lit _ _ _ E2 (sound_close lit branches s2)
      | error e => exact extends_trans lit _ _ _ E2 (sound_close lit branches s2)
  · simp only [hl, if_false]
    exact sound_close lit branches s

theorem sound_chain (lit : String → Prop) (tcs : Conditions)
    (h : ∀ tc ∈ tcs, ∀ c, tc.Content = some c → Sound lit c) :
    Sound lit (Conditions.Init tcs) := by
  intro s
  cases hT : s.CanTemplate with
  | false => simp only [Conditions.Init, hT]; exact extends_refl lit s
  | true =>
    match tcs, h with
    | [], _ => simp only [Conditions.Init, hT]; exact extends_refl lit s
    | [tc], h =>
      have e : Conditions.Init [tc] s = tc.Init s := by
        simp [Conditions.Init, hT]
      rw [e]
      exact sound_condition lit tc (h tc (List.mem_singleton.mpr rfl)) s
    | a :: b :: rest, h =>
      rw [init_long a b rest s hT]
      have hl := sound_loop lit (a :: b :: rest) 0 [] 0 s h (by simp)
      cases hx : Conditions.loop (a :: b :: rest) 0 [] 0 s with
      | left s1 o => rw [hx] at hl; exact hl
      | finished elses branches s1 =>
        rw [hx] at hl
        exact extends_trans lit _ _ _ hl.1 (sound_finish lit elses branches hl.2 s1)

theorem sound_of_tree (lit : String → Prop) (c : Component) (h : Tree lit c) : Sound lit c := by
  induction h with
  | raw text hl => exact sound_raw lit text hl
  | fragment cs _ ih => exact sound_fragment lit cs ih
  | binding tv => exact sound_variable lit tv
  | scope t _ ih => exact sound_with lit t ih
  | condition tc _ ih => exact sound_condition lit tc ih
  | chain tcs _ ih => exact sound_chain lit tcs ih

theorem lookupFunc_isSome_of_mem (tr : List Event) (id : String) (fn : Callback)
    (h : Event.registered id fn ∈ tr) : (lookupFunc tr id).isSome = true := by
  induction tr with
  | nil => simp at h
  | cons e rest ih =>
    cases e with
    | wrote text =>
      simp only [List.mem_cons, reduceCtorEq, false_or] at h
      simpa [lookupFunc] using ih h
    | registered id2 fn2 =>
      simp only [lookupFunc]
      cases hl : lookupFunc rest id with
      | some g => rfl
      | none =>
        simp only [List.mem_cons, Event.registered.injEq] at h
        rcases h with ⟨h1, _⟩ | h
        · simp [h1]
        · have := ih h
          rw [hl] at this
          simp at this

/-- C8: no dangling references.  For every tree of `Variable`, `With`,
`Condition`, `Conditions`, sequential and literal nodes (`lit` holding of the
texts of its literal nodes) and every starting context, `Init` only appends to
the trace, and every chunk it writes is the text of a literal node, or a
directive without identifier (`{{else}}`, `{{end}}`), or one of the four
directives naming an identifier `id` such that a registration of `id` stands
earlier among the appended events and `id` is a key of the registry in the
context `Init` ends in, however `Init` ends (success, error or panic). -/
theorem C8_no_dangling_reference (lit : String → Prop) (c : Component)
    (hc : Tree lit c) (s : Env) :
    ∃ ev, (c s).1.trace = s.trace ++ ev ∧
      ∀ (before : List Event) (text : String) (after : List Event),
        ev = before ++ Event.wrote text :: after →
          lit text ∨ text = "\x7b\x7belse\x7d\x7d" ∨ text = "\x7b\x7bend\x7d\x7d"
          ∨ ∃ id, Names text id ∧ (∃ fn, Event.registered id fn ∈ before)
              ∧ ((c s).1.lookup id).isSome = true := by
  obtain ⟨ev, ht, hr⟩ := sound_of_tree lit c hc s
  refine ⟨ev, ht, ?_⟩
  intro before text after he
  rcases hr before text after he with hl | hl | hl | ⟨id, hn, fn, hm⟩
  · exact Or.inl hl
  · exact Or.inr (Or.inl hl)
  · exact Or.inr (Or.inr (Or.inl hl))
  · refine Or.inr (Or.inr (Or.inr ⟨id, hn, ⟨fn, hm⟩, ?_⟩))
    apply lookupFunc_isSome_of_mem _ id fn
    show Event.registered id fn ∈ (c s).1.trace
    rw [ht, he]
    exact List.mem_append_right _ (List.mem_append_left _ hm)

theorem tree_chainWithFallback : Tree litAX (Conditions.Init chainWithFallback) := by
  apply Tree.chain
  intro tc htc c hc
  simp only [chainWithFallback, List.mem_cons, List.mem_singleton, List.not_mem_nil,
    or_false] at htc
  rcases htc with rfl | rfl
  · simp only [Option.some.injEq] at hc
    subst hc
    exact Tree.raw "A" (Or.inl rfl)
  · simp only [Option.some.injEq] at hc
    subst hc
    apply Tree.scope
    intro c2 hc2
    simp only [Option.some.injEq] at hc2
    subst hc2
    exact Tree.raw "X" (Or.inr rfl)

/-- C8 at a chain whose fallback content fails half way: the tree is a tree of
the six node kinds, and the two identifiers written are registered. -/
theorem C8_no_dangling_reference_witness :
    Tree litAX (Conditions.Init chainWithFallback)
    ∧ ∃ ev, (Conditions.Init chainWithFallback envFailFifth).1.trace = envFailFifth.trace ++ ev ∧
      ∀ (before : List Event) (text : String) (after : List Event),
        ev = before ++ Event.wrote text :: after →
          litAX text ∨ text = "\x7b\x7belse\x7d\x7d" ∨ text = "\x7b\x7bend\x7d\x7d"
          ∨ ∃ id, Names text id ∧ (∃ fn, Event.registered id fn ∈ before)
              ∧ ((Conditions.Init chainWithFallback envFailFifth).1.lookup id).isSome = true :=
  ⟨tree_chainWithFallback,
    C8_no_dangling_reference litAX (Conditions.Init chainWithFallback) tree_chainWithFallback
      envFailFifth⟩

theorem chunksOf_append (a b : List Event) : chunksOf (a ++ b) = chunksOf a ++ chunksOf b := by
  induction a with
  | nil => rfl
  | cons e rest ih =>
    cases e with
    | registered id fn => simpa [chunksOf] using ih
    | wrote text => simpa [chunksOf] using ih

theorem nestRun_append (a b : List String) (stack : List Block) :
    nestRun stack (a ++ b) = (nestRun stack a).bind (fun mid => nestRun mid b) := by
  induction a generalizing stack with
  | nil => rfl
  | cons text rest ih =>
    simp only [List.cons_append, nestRun]
    cases nestStep stack text with
    | none => rfl
    | some next => exact ih next

theorem reaches_refl (s : Env) (hs : Clean s) (stack : List Block) : Reaches s s stack stack :=
  ⟨hs, [], by simp, rfl⟩

theorem reaches_trans (s s1 s2 : Env) (a b c : List Block)
    (h1 : Reaches s s1 a b) (h2 : Reaches s1 s2 b c) : Reaches s s2 a c := by
  obtain ⟨_, k1, t1, r1⟩ := h1
  obtain ⟨hc, k2, t2, r2⟩ := h2
  refine ⟨hc, k1 ++ k2, by rw [t2, t1, List.append_assoc], ?_⟩
  rw [nestRun_append, r1]
  exact r2

theorem write_clean (s : Env) (hs : Clean s) (text : String) :
    ∃ s1, s.Write text = (s1, none) ∧ Clean s1 ∧ s1.trace = s.trace ++ [Event.wrote text]
      ∧ s1.generator = s.generator := by
  obtain ⟨hT, hf⟩ := hs
  unfold Env.Write
  cases hfl : s.faults with
  | nil => exact ⟨_, rfl, ⟨hT, by simp [hfl]⟩, rfl, rfl⟩
  | cons x rest =>
    have hx : x = none := hf x (by simp [hfl])
    subst hx
    refine ⟨_, rfl, ⟨hT, ?_⟩, rfl, rfl⟩
    intro y hy
    exact hf y (by simp [hfl, hy])

theorem reaches_write (s : Env) (hs : Clean s) (text : String) :
    ∃ s1, s.Write text = (s1, none)
      ∧ ∀ start stop, nestStep start text = some stop → Reaches s s1 start stop := by
  obtain ⟨s1, hw, hc, ht, _⟩ := write_clean s hs text
  refine ⟨s1, hw, fun start stop h => ⟨hc, [text], ?_, ?_⟩⟩
  · rw [ht, chunksOf_append]; rfl
  · simp [nestRun, h]

theorem clean_register (s : Env) (hs : Clean s) (fn : Callback) :
    Clean ((s.NewFunctionID fn).2.Funcs (s.NewFunctionID fn).1 fn)
      ∧ chunksOf ((s.NewFunctionID fn).2.Funcs (s.NewFunctionID fn).1 fn).trace
          = chunksOf s.trace := by
  refine ⟨hs, ?_⟩
  simp [Env.Funcs, Env.NewFunctionID, chunksOf_append, chunksOf]

theorem reaches_guard (s : Env) (hs : Clean s) (fn : Callback) (text : String) :
    ∃ s1, ((s.NewFunctionID fn).2.Funcs (s.NewFunctionID fn).1 fn).Write text = (s1, none)
      ∧ ∀ start stop, nestStep start text = some stop → Reaches s s1 start stop := by
  obtain ⟨hc, hk⟩ := clean_register s hs fn
  obtain ⟨s1, hw, hr⟩ := reaches_write _ hc text
  refine ⟨s1, hw, fun start stop h => ?_⟩
  obtain ⟨hc1, k, hk1, hn⟩ := hr start stop h
  exact ⟨hc1, k, by rw [hk1, hk], hn⟩

theorem nestStep_if (id : String) (stack : List Block) :
    nestStep stack ("\x7b\x7bif " ++ id ++ " $r\x7d\x7d") = some (Block.ifOpen :: stack) := by
  have h1 : "\x7b\x7bif " ++ id ++ " $r\x7d\x7d" ≠ "\x7b\x7bend\x7d\x7d" := by
    intro h
    have := congrArg String.data h
    simp at this
  have h2 : "\x7b\x7bif " ++ id ++ " $r\x7d\x7d" ≠ "\x7b\x7belse\x7d\x7d" := by
    intro h
    have := congrArg String.data h
    simp at this
  have h3 : beginsWith "\x7b\x7belse if " ("\x7b\x7bif " ++ id ++ " $r\x7d\x7d") = false := by
    simp [beginsWith, List.isPrefixOf]
  have h4 : beginsWith "\x7b\x7bif " ("\x7b\x7bif " ++ id ++ " $r\x7d\x7d") = true := by
    simp [beginsWith, List.isPrefixOf]
  simp only [nestStep, h1, h2, h3, h4, if_false, if_true, Bool.false_eq_true]

theorem nestStep_else_if (id : String) (stack : List Block) :
    nestStep (Block.ifOpen :: stack) ("\x7b\x7belse if " ++ id ++ " $r\x7d\x7d")
      = some (Block.ifOpen :: stack) := by
  have h1 : "\x7b\x7belse if " ++ id ++ " $r\x7d\x7d" ≠ "\x7b\x7bend\x7d\x7d" := by
    intro h
    have := congrArg String.data h
    simp at this
  have h2 : "\x7b\x7belse if " ++ id ++ " $r\x7d\x7d" ≠ "\x7b\x7belse\x7d\x7d" := by
    intro h
    have := congrArg String.data h
    simp at this
  have h3 : beginsWith "\x7b\x7belse if " ("\x7b\x7belse if " ++ id ++ " $r\x7d\x7d") = true := by
    simp [beginsWith, List.isPrefixOf]
  simp only [nestStep, h1, h2, h3, if_false, if_true]

theorem nestStep_with (id : String) (stack : List Block) :
    nestStep stack ("\x7b\x7bwith " ++ id ++ " $r\x7d\x7d") = some (Block.withOpen :: stack) := by
  have h1 : "\x7b\x7bwith " ++ id ++ " $r\x7d\x7d" ≠ "\x7b\x7bend\x7d\x7d" := by
    intro h
    have := congrArg String.data h
    simp at this
  have h2 : "\x7b\x7bwith " ++ id ++ " $r\x7d\x7d" ≠ "\x7b\x7belse\x7d\x7d" := by
    intro h
    have := congrArg String.data h
    simp at this
  have h3 : beginsWith "\x7b\x7belse if " ("\x7b\x7bwith " ++ id ++ " $r\x7d\x7d") = false := by
    simp [beginsWith, List.isPrefixOf]
  have h4 : beginsWith "\x7b\x7bif " ("\x7b\x7bwith " ++ id ++ " $r\x7d\x7d") = false := by
    simp [beginsWith, List.isPrefixOf]
  have h5 : beginsWith "\x7b\x7bwith " ("\x7b\x7bwith " ++ id ++ " $r\x7d\x7d") = true := by
    simp [beginsWith, List.isPrefixOf]
  simp only [nestStep, h1, h2, h3, h4, h5, if_false, if_true, Bool.false_eq_true]

theorem nestStep_end (top : Block) (stack : List Block) :
    nestStep (top :: stack) "\x7b\x7bend\x7d\x7d" = some stack := by
  simp [nestStep]

theorem nestStep_else (stack : List Block) :
    nestStep (Block.ifOpen :: stack) "\x7b\x7belse\x7d\x7d" = some (Block.ifElse :: stack) := by
  have h1 : "\x7b\x7belse\x7d\x7d" ≠ "\x7b\x7bend\x7d\x7d" := by decide
  simp only [nestStep, h1, if_false, if_true]

theorem raw_reaches (s : Env) (hs : Clean s) (text : String) :
    (Raw.Init text s).2 = Outcome.ok
      ∧ ∀ start stop, nestStep start text = some stop →
          Reaches s (Raw.Init text s).1 start stop := by
  obtain ⟨s1, hw, hc, ht, _⟩ := write_clean s hs text
  have e := raw_of_write text s s1 hw
  rw [e]
  refine ⟨rfl, ?_⟩
  intro start stop h
  refine ⟨hc, [text], ?_, ?_⟩
  · show chunksOf s1.trace = _
    rw [ht, chunksOf_append]; rfl
  · simp [nestRun, h]

theorem guard_reaches (s : Env) (hs : Clean s) (fn : Callback) (text : String) :
    (Raw.Init text ((s.NewFunctionID fn).2.Funcs (s.NewFunctionID fn).1 fn)).2 = Outcome.ok
      ∧ ∀ start stop, nestStep start text = some stop →
          Reaches s (Raw.Init text ((s.NewFunctionID fn).2.Funcs (s.NewFunctionID fn).1 fn)).1
            start stop := by
  obtain ⟨hc, hk⟩ := clean_register s hs fn
  obtain ⟨ho, hr⟩ := raw_reaches _ hc text
  refine ⟨ho, ?_⟩
  intro start stop h
  obtain ⟨hc1, k, hk1, hn⟩ := hr start stop h
  exact ⟨hc1, k, by rw [hk1, hk], hn⟩

theorem balanced_raw (text : String) (h : Plain text) : Balanced (Raw.Init text) := by
  intro s hs
  obtain ⟨ho, hr⟩ := raw_reaches s hs text
  exact ⟨ho, fun stack => hr stack stack (h stack)⟩

theorem balanced_fragment (cs : List Component) (h : ∀ c ∈ cs, Balanced c) :
    Balanced (Fragment.Init cs) := by
  induction cs with
  | nil => intro s hs; exact ⟨rfl, fun stack => reaches_refl s hs stack⟩
  | cons c rest ih =>
    intro s hs
    obtain ⟨ho, hr⟩ := h c (List.mem_cons_self _ _) s hs
    have hrest := ih (fun x hx => h x (List.mem_cons_of_mem _ hx))
    simp only [Fragment.Init]
    rcases h1 : c s with ⟨s1, o⟩
    rw [h1] at ho hr
    simp only at ho
    subst ho
    simp only
    obtain ⟨ho2, hr2⟩ := hrest s1 (hr []).1
    exact ⟨ho2, fun stack => reaches_trans _ _ _ _ _ _ (hr stack) (hr2 stack)⟩

theorem balanced_variable (tv : Variable)
    (h : ∀ id : String, Plain ("\x7b\x7b" ++ tv.Name ++ " := " ++ id ++ " $r\x7d\x7d")) :
    Balanced tv.Init := by
  intro s hs
  have hT : s.CanTemplate = true := hs.1
  obtain ⟨ho, hr⟩ := guard_reaches s hs tv.Func
    ("\x7b\x7b" ++ tv.Name ++ " := " ++ (s.NewFunctionID tv.Func).1 ++ " $r\x7d\x7d")
  simp only [Variable.Init, hT, Bool.not_true, Bool.false_eq_true, if_false]
  exact ⟨ho, fun stack => hr stack stack (h _ stack)⟩

theorem balanced_with (t : With) (h : ∀ c, t.Content = some c → Balanced c) :
    Balanced t.Init := by
  intro s hs
  have hT : s.CanTemplate = true := hs.1
  rcases t with ⟨fn, content⟩
  cases content with
  | none =>
    simp only [With.Init, hT, Bool.not_true, Bool.false_eq_true, if_false]
    exact ⟨trivial, fun stack => reaches_refl s hs stack⟩
  | some c =>
    have hc := h c rfl
    obtain ⟨o1, r1⟩ := guard_reaches s hs fn
      ("\x7b\x7bwith " ++ (s.NewFunctionID fn).1 ++ " $r\x7d\x7d")
    simp only [With.Init, hT, Bool.not_true, Bool.false_eq_true, if_false]
    rcases h1 : Raw.Init ("\x7b\x7bwith " ++ (s.NewFunctionID fn).1 ++ " $r\x7d\x7d")
      ((s.NewFunctionID fn).2.Funcs (s.NewFunctionID fn).1 fn) with ⟨s3, o3⟩
    rw [h1] at o1 r1
    simp only at o1
    subst o1
    simp only
    have c3 : Clean s3 := (r1 [] _ (nestStep_with _ _)).1
    obtain ⟨o2, r2⟩ := hc s3 c3
    rcases h2 : c s3 with ⟨s4, o4⟩
    rw [h2] at o2 r2
    simp only at o2
    subst o2
    simp only
    have c4 : Clean s4 := (r2 []).1
    obtain ⟨o5, r5⟩ := raw_reaches s4 c4 "\x7b\x7bend\x7d\x7d"
    rcases h3 : Raw.Init "\x7b\x7bend\x7d\x7d" s4 with ⟨s5, o6⟩
    rw [h3] at o5 r5
    simp only at o5
    subst o5
    refine ⟨rfl, fun stack => ?_⟩
    exact reaches_trans _ _ _ _ _ _
      (reaches_trans _ _ _ _ _ _ (r1 stack _ (nestStep_with _ stack)) (r2 _))
      (r5 _ _ (nestStep_end _ stack))

theorem balanced_condition (tc : Condition) (h : ∀ c, tc.Content = some c → Balanced c) :
    Balanced tc.Init := by
  intro s hs
  have hT : s.CanTemplate = true := hs.1
  rcases tc with ⟨cond, content⟩
  cases content with
  | none =>
    simp only [Condition.Init, hT, Bool.not_true, Bool.false_eq_true, if_false]
    exact ⟨trivial, fun stack => reaches_refl s hs stack⟩
  | some c =>
    have hc := h c rfl
    cases cond with
    | none =>
      simp only [Condition.Init, hT, Bool.not_true, Bool.false_eq_true, if_false]
      exact hc s hs
    | some p =>
      obtain ⟨o1, r1⟩ := guard_reaches s hs p
        ("\x7b\x7bif " ++ (s.NewFunctionID p).1 ++ " $r\x7d\x7d")
      simp only [Condition.Init, hT, Bool.not_true, Bool.false_eq_true, if_false,
        Condition.ConditionString, guard_if_text]
      rcases h1 : Raw.Init ("\x7b\x7bif " ++ (s.NewFunctionID p).1 ++ " $r\x7d\x7d")
        ((s.NewFunctionID p).2.Funcs (s.NewFunctionID p).1 p) with ⟨s3, o3⟩
      rw [h1] at o1 r1
      simp only at o1
      subst o1
      simp only
      have c3 : Clean s3 := (r1 [] _ (nestStep_if _ _)).1
      obtain ⟨o2, r2⟩ := hc s3 c3
      rcases h2 : c s3 with ⟨s4, o4⟩
      rw [h2] at o2 r2
      simp only at o2
      subst o2
      simp only
      have c4 : Clean s4 := (r2 []).1
      obtain ⟨o5, r5⟩ := raw_reaches s4 c4 "\x7b\x7bend\x7d\x7d"
      rcases h3 : Raw.Init "\x7b\x7bend\x7d\x7d" s4 with ⟨s5, o6⟩
      rw [h3] at o5 r5
      simp only at o5
      subst o5
      refine ⟨rfl, fun stack => ?_⟩
      exact reaches_trans _ _ _ _ _ _
        (reaches_trans _ _ _ _ _ _ (r1 stack _ (nestStep_if _ stack)) (r2 _))
        (r5 _ _ (nestStep_end _ stack))

theorem inChain_guard (branches : Nat) (id : String) (stack : List Block) :
    nestStep (inChain branches stack)
      ((if branches > 0 then "\x7b\x7belse if " else "\x7b\x7bif ") ++ id ++ " $r\x7d\x7d")
      = some (inChain (branches + 1) stack) := by
  have h1 : inChain (branches + 1) stack = Block.ifOpen :: stack := by
    simp [inChain]
  rw [h1]
  by_cases hb : branches > 0
  · simp only [inChain, hb, if_true]
    exact nestStep_else_if id stack
  · simp only [inChain, hb, if_false]
    exact nestStep_if id stack

theorem run_guardSteps (gs : List (Callback × Component)) :
    ∀ (branches : Nat) (s : Env), Clean s → (∀ g ∈ gs, Balanced g.2) →
      ∃ s1, runSteps (guardSteps branches gs) s = some s1
        ∧ ∀ stack, Reaches s s1 (inChain branches stack)
            (inChain (branches + gs.length) stack) := by
  induction gs with
  | nil =>
    intro branches s hs _
    exact ⟨s, rfl, fun stack => reaches_refl s hs _⟩
  | cons g rest ih =>
    intro branches s hs hb
    rcases g with ⟨p, c⟩
    obtain ⟨s3, hw, r3⟩ := reaches_guard s hs p
      ((if branches > 0 then "\x7b\x7belse if " else "\x7b\x7bif ")
        ++ (s.NewFunctionID p).1 ++ " $r\x7d\x7d")
    have c3 : Clean s3 := (r3 _ _ (inChain_guard branches _ [])).1
    obtain ⟨o4, r4⟩ := hb (p, c) (List.mem_cons_self _ _) s3 c3
    have c4 : Clean (c s3).1 := (r4 []).1
    obtain ⟨s5, h5, r5⟩ := ih (branches + 1) (c s3).1 c4
      (fun x hx => hb x (List.mem_cons_of_mem _ hx))
    refine ⟨s5, ?_, fun stack => ?_⟩
    · have e4 : c s3 = ((c s3).1, Outcome.ok) := by rw [← o4]
      simp only [guardSteps, runSteps, Step.run, hw]
      rw [e4]
      simp only
      exact h5
    · have e : branches + (List.length ((p, c) :: rest)) = branches + 1 + rest.length := by
        simp only [List.length_cons]; omega
      rw [e]
      exact reaches_trans _ _ _ _ _ _
        (reaches_trans _ _ _ _ _ _ (r3 _ _ (inChain_guard branches _ stack)) (r4 _)) (r5 stack)

theorem run_contents (cs : List Component) :
    ∀ (s : Env), Clean s → (∀ c ∈ cs, Balanced c) →
      ∃ s1, runSteps (cs.map Step.content) s = some s1 ∧ ∀ stack, Reaches s s1 stack stack := by
  induction cs with
  | nil =>
    intro s hs _
    exact ⟨s, rfl, fun stack => reaches_refl s hs _⟩
  | cons c rest ih =>
    intro s hs hb
    obtain ⟨o1, r1⟩ := hb c (List.mem_cons_self _ _) s hs
    obtain ⟨s2, h2, r2⟩ := ih (c s).1 (r1 []).1 (fun x hx => hb x (List.mem_cons_of_mem _ hx))
    refine ⟨s2, ?_, fun stack => reaches_trans _ _ _ _ _ _ (r1 stack) (r2 stack)⟩
    have e1 : c s = ((c s).1, Outcome.ok) := by rw [← o1]
    simp only [List.map_cons, runSteps, Step.run]
    rw [e1]
    simp only
    exact h2

theorem run_directive (s : Env) (hs : Clean s) (text : String) :
    ∃ s1, runSteps [Step.directive text] s = some s1
      ∧ ∀ start stop, nestStep start text = some stop → Reaches s s1 start stop := by
  obtain ⟨s1, hw, hr⟩ := reaches_write s hs text
  exact ⟨s1, by simp [runSteps, Step.run, hw], hr⟩

theorem mem_guardedOf (tcs : Conditions) (g : Callback × Component) (h : g ∈ guardedOf tcs) :
    ∃ tc ∈ tcs, tc.Content = some g.2 := by
  unfold guardedOf at h
  obtain ⟨tc, htc, he⟩ := List.mem_filterMap.mp h
  refine ⟨tc, htc, ?_⟩
  rcases tc with ⟨cond, content⟩
  cases cond <;> cases content <;> simp at he
  simp [← he]

theorem mem_fallbackOf (tcs : Conditions) (c : Component) (h : c ∈ fallbackOf tcs) :
    ∃ tc ∈ tcs, tc.Content = some c := by
  unfold fallbackOf at h
  obtain ⟨tc, htc, he⟩ := List.mem_filterMap.mp h
  refine ⟨tc, htc, ?_⟩
  rcases tc with ⟨cond, content⟩
  cases cond <;> simp at he
  simp [he]

theorem run_chain_tail (fallback : List Component) (s : Env) (hs : Clean s)
    (hb : ∀ c ∈ fallback, Balanced c) :
    ∃ s2, runSteps (elseSteps fallback ++ [Step.directive "\x7b\x7bend\x7d\x7d"]) s = some s2
      ∧ ∀ stack, Reaches s s2 (Block.ifOpen :: stack) stack := by
  by_cases hl : fallback.length > 0
  · obtain ⟨sa, ha, ra⟩ := run_directive s hs "\x7b\x7belse\x7d\x7d"
    have ca : Clean sa := (ra _ _ (nestStep_else [])).1
    obtain ⟨sb, hb2, rb⟩ := run_contents fallback sa ca hb
    have cb : Clean sb := (rb []).1
    obtain ⟨sc, hc2, rc⟩ := run_directive sb cb "\x7b\x7bend\x7d\x7d"
    refine ⟨sc, ?_, fun stack => ?_⟩
    · have e : elseSteps fallback ++ [Step.directive "\x7b\x7bend\x7d\x7d"]
          = [Step.directive "\x7b\x7belse\x7d\x7d"]
            ++ (fallback.map Step.content ++ [Step.directive "\x7b\x7bend\x7d\x7d"]) := by
        simp [elseSteps, hl]
      rw [e, runSteps_append, ha, Option.some_bind, runSteps_append, hb2, Option.some_bind]
      exact hc2
    · exact reaches_trans _ _ _ _ _ _
        (reaches_trans _ _ _ _ _ _ (ra _ _ (nestStep_else stack)) (rb _))
        (rc _ _ (nestStep_end _ stack))
  · obtain ⟨sc, hc2, rc⟩ := run_directive s hs "\x7b\x7bend\x7d\x7d"
    refine ⟨sc, ?_, fun stack => rc _ _ (nestStep_end _ stack)⟩
    simp only [elseSteps, hl, if_false, List.nil_append]
    exact hc2

theorem balanced_chain (tcs : Conditions)
    (hc : ∀ tc ∈ tcs, tc.Condition ≠ none → tc.Content ≠ none)
    (h : ∀ tc ∈ tcs, ∀ c, tc.Content = some c → Balanced c) :
    Balanced (Conditions.Init tcs) := by
  intro s hs
  have hT : s.CanTemplate = true := hs.1
  match tcs, hc, h with
  | [], _, _ =>
    simp only [Conditions.Init, hT, Bool.not_true, Bool.false_eq_true, if_false]
    exact ⟨trivial, fun stack => reaches_refl s hs stack⟩
  | [tc], _, h =>
    have e : Conditions.Init [tc] s = tc.Init s := by simp [Conditions.Init, hT]
    rw [e]
    exact balanced_condition tc (h tc (List.mem_singleton.mpr rfl)) s hs
  | a :: b :: rest, hc, h =>
    have hg : ∀ g ∈ guardedOf (a :: b :: rest), Balanced g.2 := by
      intro g hg
      obtain ⟨tc, htc, he⟩ := mem_guardedOf _ g hg
      exact h tc htc g.2 he
    have hf : ∀ c ∈ fallbackOf (a :: b :: rest), Balanced c := by
      intro c hc2
      obtain ⟨tc, htc, he⟩ := mem_fallbackOf _ c hc2
      exact h tc htc c he
    obtain ⟨s1, h1, r1⟩ := run_guardSteps (guardedOf (a :: b :: rest)) 0 s hs hg
    have c1 : Clean s1 := (r1 []).1
    rw [init_long a b rest s hT, loop_of_run _ 0 [] 0 s s1 hc h1]
    simp only [List.nil_append, Nat.zero_add]
    by_cases hk : (guardedOf (a :: b :: rest)).length > 0
    · obtain ⟨s2, h2, r2⟩ := run_chain_tail (fallbackOf (a :: b :: rest)) s1 c1 hf
      rw [finish_of_run _ _ _ _ hk h2]
      refine ⟨rfl, fun stack => ?_⟩
      have r := r1 stack
      simp only [inChain, Nat.zero_add, hk, if_true, gt_iff_lt, Nat.lt_irrefl, if_false] at r
      exact reaches_trans _ _ _ _ _ _ r (r2 stack)
    · have hk0 : (guardedOf (a :: b :: rest)).length = 0 := by omega
      have r0 : ∀ stack, Reaches s s1 stack stack := by
        intro stack
        have r := r1 stack
        simp only [inChain, hk0, Nat.add_zero, gt_iff_lt, Nat.lt_irrefl, if_false] at r
        exact r
      rw [hk0]
      obtain ⟨o3, r3⟩ := balanced_fragment _ hf s1 c1
      unfold Conditions.finish
      by_cases hl : (fallbackOf (a :: b :: rest)).length > 0
      · simp only [hl, if_true, gt_iff_lt, Nat.lt_irrefl, if_false]
        rcases h3 : Fragment.Init (fallbackOf (a :: b :: rest)) s1 with ⟨s3, o⟩
        rw [h3] at o3 r3
        simp only at o3
        subst o3
        simp only [Conditions.close, gt_iff_lt, Nat.lt_irrefl, if_false]
        exact ⟨trivial, fun stack => reaches_trans _ _ _ _ _ _ (r0 stack) (r3 stack)⟩
      · simp only [hl, if_false, Conditions.close, gt_iff_lt, Nat.lt_irrefl]
        exact ⟨trivial, r0⟩

theorem balanced_of_tree (c : Component) (h : NestTree c) : Balanced c := by
  induction h with
  | raw text hp => exact balanced_raw text hp
  | fragment cs _ ih => exact balanced_fragment cs ih
  | binding tv hp => exact balanced_variable tv hp
  | scope t _ ih => exact balanced_with t ih
  | condition tc _ ih => exact balanced_condition tc ih
  | chain tcs hc _ ih => exact balanced_chain tcs hc ih

/-- Nesting when no write fails.  For every tree of the six node kinds over
literals and binding directives that are no block directives, in which every
chain entry with a predicate has content, compiled with templating enabled into
a writer that accepts every write: `Init` succeeds, and the chunks it writes
lead every stack of open blocks back to itself without a directive out of
place; written into an empty stream they are well nested. -/
theorem nesting_when_no_write_fails (c : Component) (h : NestTree c) (s : Env)
    (hs : Clean s) :
    (c s).2 = Outcome.ok
    ∧ (∃ chunks, chunksOf (c s).1.trace = chunksOf s.trace ++ chunks
        ∧ ∀ stack, nestRun stack chunks = some stack)
    ∧ (s.trace = [] → wellNested (chunksOf (c s).1.trace) = true) := by
  obtain ⟨ho, hr⟩ := balanced_of_tree c h s hs
  obtain ⟨_, k, hk, _⟩ := hr []
  refine ⟨ho, ⟨k, hk, fun stack => ?_⟩, fun he => ?_⟩
  · obtain ⟨_, k2, hk2, hn2⟩ := hr stack
    have : k2 = k := List.append_cancel_left (hk2.symm.trans hk)
    rw [← this]
    exact hn2
  · obtain ⟨_, k2, hk2, hn2⟩ := hr []
    rw [hk2, he]
    simp [chunksOf, wellNested, hn2]

theorem plain_A : Plain "A" := by
  intro stack
  simp [nestStep, beginsWith, List.isPrefixOf]

theorem plain_X : Plain "X" := by
  intro stack
  simp [nestStep, beginsWith, List.isPrefixOf]

theorem nestTree_chainWithFallback : NestTree (Conditions.Init chainWithFallback) := by
  apply NestTree.chain
  · intro tc htc
    simp only [chainWithFallback, List.mem_cons, List.mem_singleton, List.not_mem_nil,
      or_false] at htc
    rcases htc with rfl | rfl <;> simp
  · intro tc htc c hc
    simp only [chainWithFallback, List.mem_cons, List.mem_singleton, List.not_mem_nil,
      or_false] at htc
    rcases htc with rfl | rfl
    · simp only [Option.some.injEq] at hc
      subst hc
      exact NestTree.raw "A" plain_A
    · simp only [Option.some.injEq] at hc
      subst hc
      apply NestTree.scope
      intro c2 hc2
      simp only [Option.some.injEq] at hc2
      subst hc2
      exact NestTree.raw "X" plain_X

/-- The chain that leaves a block open when its fifth write fails is well nested
when no write fails. -/
theorem nesting_when_no_write_fails_witness :
    (Conditions.Init chainWithFallback env0).2 = Outcome.ok
    ∧ wellNested (chunksOf (Conditions.Init chainWithFallback env0).1.trace) = true :=
  have h := nesting_when_no_write_fails (Conditions.Init chainWithFallback)
    nestTree_chainWithFallback env0 ⟨rfl, by simp [env0]⟩
  ⟨h.1, h.2.2 rfl⟩

theorem write_rejected (s s1 : Env) (text : String) (e : Error)
    (h : s.Write text = (s1, some e)) :
    s1.trace = s.trace ∧ s1.generator = s.generator ∧ s1.canTemplate = s.canTemplate := by
  unfold Env.Write at h
  split at h
  · simp at h
  · simp at h
  · simp only [Prod.mk.injEq] at h
    obtain ⟨h1, _⟩ := h
    subst h1
    simp

theorem raw_of_rejected (text : String) (s s1 : Env) (e : Error)
    (h : s.Write text = (s1, some e)) : Raw.Init text s = (s1, Outcome.error e) := by
  simp [Raw.Init, h]

/-- C11: a `Condition` without predicate and with content, compiled with
templating enabled, is its content: `Init` returns exactly what the content's
own `Init` returns from the same context (same context after, same result), so
it writes no guard and no `{{end}}`, allocates and registers nothing itself; the
single-entry chain of such an entry does the same. -/
theorem C11_condition_without_predicate (tc : Condition) (content : Component) (s : Env)
    (hT : s.CanTemplate = true) (hp : tc.Condition = none)
    (hcontent : tc.Content = some content) :
    tc.Init s = content s ∧ Conditions.Init [tc] s = content s := by
  rcases tc with ⟨p, c⟩
  simp only at hp hcontent
  subst hp hcontent
  have hT2 : s.CanTemplate = true := hT
  constructor
  · simp [Condition.Init, hT2]
  · simp [Conditions.Init, Condition.Init, hT2]

/-- C11 at the scenario: the single-entry chain `[{nil, X}]` writes exactly `X`. -/
theorem C11_condition_without_predicate_witness :
    Conditions.Init [condX] env0 = Raw.Init "X" env0
    ∧ (Conditions.Init [condX] env0).1.trace = [Event.wrote "X"]
    ∧ (Conditions.Init [condX] env0).1.output = "X" :=
  ⟨(C11_condition_without_predicate condX (Raw.Init "X") env0 rfl rfl rfl).2,
   by decide, by decide⟩

/-- C12: a `Condition` with nil content, with or without a predicate, compiled
with templating enabled, is a successful no-op: `Init` returns nil and the
context it was given, so nothing is written, allocated or registered; the
single-entry chain of such an entry does the same. -/
theorem C12_condition_without_content (tc : Condition) (s : Env)
    (hT : s.CanTemplate = true) (hcontent : tc.Content = none) :
    tc.Init s = (s, Outcome.ok) ∧ Conditions.Init [tc] s = (s, Outcome.ok) := by
  rcases tc with ⟨p, c⟩
  simp only at hcontent
  subst hcontent
  have hT2 : s.CanTemplate = true := hT
  constructor
  · simp [Condition.Init, hT2]
  · simp [Conditions.Init, Condition.Init, hT2]

/-- C12 at the scenario: the single-entry chain `[{p1, nil}]` writes the empty
string and the registry has no entry for the identifier of `p1`. -/
theorem C12_condition_without_content_witness :
    Conditions.Init [condNil] env0 = (env0, Outcome.ok)
    ∧ (Conditions.Init [condNil] env0).1.output = ""
    ∧ (Conditions.Init [condNil] env0).1.lookup "id1" = none
    ∧ (Conditions.Init [condNil] env0).1.generator.issued = [] :=
  ⟨(C12_condition_without_content condNil env0 rfl rfl).2, by decide, by decide, by decide⟩

/-- C13: a `With` node with content, compiled with templating enabled while the
two directive writes and the content succeed: `Init` succeeds; one identifier is
allocated for the callback; it is registered for the callback and then the
opening directive naming it is written, so that the context the content starts
from extends the initial one by exactly that registration and that write; after
the content exactly the closing directive is written.  The callback is a value
that is stored, never applied. -/
theorem C13_with_scope_block (t : With) (content : Component) (s s3 s4 s5 : Env)
    (hT : s.CanTemplate = true) (hcontent : t.Content = some content)
    (hw1 : ((s.NewFunctionID t.Func).2.Funcs (s.NewFunctionID t.Func).1 t.Func).Write
        ("\x7b\x7bwith " ++ (s.NewFunctionID t.Func).1 ++ " $r\x7d\x7d") = (s3, none))
    (hc : content s3 = (s4, Outcome.ok))
    (hw2 : s4.Write "\x7b\x7bend\x7d\x7d" = (s5, none)) :
    t.Init s = (s5, Outcome.ok)
    ∧ s3.generator.issued = s.generator.issued ++ [t.Func]
    ∧ s3.trace = s.trace ++ [Event.registered (s.NewFunctionID t.Func).1 t.Func,
        Event.wrote ("\x7b\x7bwith " ++ (s.NewFunctionID t.Func).1 ++ " $r\x7d\x7d")]
    ∧ s3.lookup (s.NewFunctionID t.Func).1 = some t.Func
    ∧ s5.trace = s4.trace ++ [Event.wrote "\x7b\x7bend\x7d\x7d"]
    ∧ s5.generator = s4.generator := by
  have a1 := write_accepted _ _ _ hw1
  have a2 := write_accepted _ _ _ hw2
  have htr : s3.trace = s.trace ++ [Event.registered (s.NewFunctionID t.Func).1 t.Func,
      Event.wrote ("\x7b\x7bwith " ++ (s.NewFunctionID t.Func).1 ++ " $r\x7d\x7d")] := by
    rw [a1.1]
    simp [Env.Funcs, Env.NewFunctionID]
  refine ⟨?_, ?_, htr, ?_, a2.1, a2.2.1⟩
  · rcases t with ⟨fn, c⟩
    simp only at hcontent
    subst hcontent
    have hT2 : s.CanTemplate = true := hT
    have e1 := raw_of_write _ _ _ hw1
    have e3 := raw_of_write _ _ _ hw2
    simp only [With.Init, hT2]
    simp [e1, hc, e3]
  · rw [a1.2.1]
    simp [Env.Funcs, Env.NewFunctionID]
  · unfold Env.lookup
    rw [htr, lookupFunc_append]
    simp [lookupFunc]

/-- C13 at a scope around a literal: the hypotheses hold and `Init` writes the
opening directive, the literal and the closing directive. -/
theorem C13_with_scope_block_witness :
    withX.Init env0 = (envW5, Outcome.ok)
    ∧ envW3.lookup "id1" = some 11
    ∧ envW5.output = "\x7b\x7bwith id1 $r\x7d\x7dX\x7b\x7bend\x7d\x7d" :=
  have h := C13_with_scope_block withX (Raw.Init "X") env0 envW3 envW4 envW5
    rfl rfl (by rfl) (by rfl) (by rfl)
  ⟨h.1, h.2.2.2.1, by decide⟩

/-- C14: a `With` node with nil content, compiled with templating enabled,
returns nil and the context it was given: nothing written, no identifier
allocated, no callback registered, registry and generator unchanged. -/
theorem C14_with_without_content (t : With) (s : Env)
    (hT : s.CanTemplate = true) (hcontent : t.Content = none) :
    t.Init s = (s, Outcome.ok) := by
  rcases t with ⟨fn, c⟩
  simp only at hcontent
  subst hcontent
  have hT2 : s.CanTemplate = true := hT
  simp [With.Init, hT2]

/-- C14 at a fresh context. -/
theorem C14_with_without_content_witness :
    (With.mk 11 none).Init env0 = (env0, Outcome.ok) :=
  C14_with_without_content (With.mk 11 none) env0 rfl rfl

/-- C15: a `Variable` node compiled with templating enabled allocates one
identifier for its callback, registers it for the callback, and then hands the
single directive `{{Name := id $r}}` to the literal primitive, whose result it
returns as it is.  When the write is accepted, `Init` succeeds and the trace has
grown by exactly the registration and that one write.  When the write is
rejected with an error, `Init` returns that error, nothing was written, and the
identifier is registered all the same. -/
theorem C15_variable_binding (tv : Variable) (s : Env) (hT : s.CanTemplate = true) :
    tv.Init s
      = Raw.Init ("\x7b\x7b" ++ tv.Name ++ " := " ++ (s.NewFunctionID tv.Func).1 ++ " $r\x7d\x7d")
          ((s.NewFunctionID tv.Func).2.Funcs (s.NewFunctionID tv.Func).1 tv.Func)
    ∧ (∀ s3, ((s.NewFunctionID tv.Func).2.Funcs (s.NewFunctionID tv.Func).1 tv.Func).Write
          ("\x7b\x7b" ++ tv.Name ++ " := " ++ (s.NewFunctionID tv.Func).1 ++ " $r\x7d\x7d")
            = (s3, none) →
        tv.Init s = (s3, Outcome.ok)
        ∧ s3.generator.issued = s.generator.issued ++ [tv.Func]
        ∧ s3.trace = s.trace ++ [Event.registered (s.NewFunctionID tv.Func).1 tv.Func,
            Event.wrote ("\x7b\x7b" ++ tv.Name ++ " := " ++ (s.NewFunctionID tv.Func).1
              ++ " $r\x7d\x7d")]
        ∧ s3.lookup (s.NewFunctionID tv.Func).1 = some tv.Func)
    ∧ (∀ s3 e, ((s.NewFunctionID tv.Func).2.Funcs (s.NewFunctionID tv.Func).1 tv.Func).Write
          ("\x7b\x7b" ++ tv.Name ++ " := " ++ (s.NewFunctionID tv.Func).1 ++ " $r\x7d\x7d")
            = (s3, some e) →
        tv.Init s = (s3, Outcome.error e)
        ∧ s3.trace = s.trace ++ [Event.registered (s.NewFunctionID tv.Func).1 tv.Func]
        ∧ s3.lookup (s.NewFunctionID tv.Func).1 = some tv.Func) := by
  have hT2 : s.CanTemplate = true := hT
  have h0 : tv.Init s
      = Raw.Init ("\x7b\x7b" ++ tv.Name ++ " := " ++ (s.NewFunctionID tv.Func).1 ++ " $r\x7d\x7d")
          ((s.NewFunctionID tv.Func).2.Funcs (s.NewFunctionID tv.Func).1 tv.Func) := by
    simp [Variable.Init, hT2]
  refine ⟨h0, ?_, ?_⟩
  · intro s3 hw
    have a := write_accepted _ _ _ hw
    have htr : s3.trace = s.trace ++ [Event.registered (s.NewFunctionID tv.Func).1 tv.Func,
        Event.wrote ("\x7b\x7b" ++ tv.Name ++ " := " ++ (s.NewFunctionID tv.Func).1
          ++ " $r\x7d\x7d")] := by
      rw [a.1]
      simp [Env.Funcs, Env.NewFunctionID]
    refine ⟨by rw [h0, raw_of_write _ _ _ hw], ?_, htr, ?_⟩
    · rw [a.2.1]
      simp [Env.Funcs, Env.NewFunctionID]
    · unfold Env.lookup
      rw [htr, lookupFunc_append]
      simp [lookupFunc]
  · intro s3 e hw
    have a := write_rejected _ _ _ _ hw
    have htr : s3.trace = s.trace ++ [Event.registered (s.NewFunctionID tv.Func).1 tv.Func] := by
      rw [a.1]
      simp [Env.Funcs, Env.NewFunctionID]
    refine ⟨by rw [h0, raw_of_rejected _ _ _ _ hw], htr, ?_⟩
    unfold Env.lookup
    rw [htr, lookupFunc_append]
    simp [lookupFunc]

/-- C15 at the binding `user`: with an accepting writer the directive
`{{user := id1 $r}}` is written; with a writer that rejects the write the error
comes back and `id1` is registered. -/
theorem C15_variable_binding_witness :
    varUser.Init env0 = (envV, Outcome.ok)
    ∧ envV.lookup "id1" = some 12
    ∧ varUser.Init envFailFirst = (envVFail, Outcome.error (Error.io "write failed"))
    ∧ envVFail.lookup "id1" = some 12 :=
  have h1 := (C15_variable_binding varUser env0 rfl).2.1 envV (by rfl)
  have h2 := (C15_variable_binding varUser envFailFirst rfl).2.2 envVFail
    (Error.io "write failed") (by rfl)
  ⟨h1.1, h1.2.2.2, h2.1, h2.2.2⟩

/-- C16: a `With` node with content, compiled with templating enabled.  If the
opening directive fails with `e`, `Init` returns `e` wrapped as `failed to write
with prefix` in the context of that failure: the content was not compiled and no
`{{end}}` written.  If the content fails with `e`, `Init` returns `e` wrapped as
`failed to write with content` in the context the content left: no `{{end}}`
written.  If the closing directive fails with `e`, `Init` returns `e` wrapped as
`failed to write with suffix`.  A wrapper keeps the underlying cause. -/
theorem C16_with_error_phases (t : With) (content : Component) (s : Env)
    (hT : s.CanTemplate = true) (hcontent : t.Content = some content) :
    (∀ s3 e, Raw.Init ("\x7b\x7bwith " ++ (s.NewFunctionID t.Func).1 ++ " $r\x7d\x7d")
          ((s.NewFunctionID t.Func).2.Funcs (s.NewFunctionID t.Func).1 t.Func)
            = (s3, Outcome.error e) →
        t.Init s = (s3, Outcome.error (Error.wrap "failed to write with prefix" e)))
    ∧ (∀ s3 s4 e, Raw.Init ("\x7b\x7bwith " ++ (s.NewFunctionID t.Func).1 ++ " $r\x7d\x7d")
          ((s.NewFunctionID t.Func).2.Funcs (s.NewFunctionID t.Func).1 t.Func)
            = (s3, Outcome.ok) →
        content s3 = (s4, Outcome.error e) →
        t.Init s = (s4, Outcome.error (Error.wrap "failed to write with content" e)))
    ∧ (∀ s3 s4 s5 e, Raw.Init ("\x7b\x7bwith " ++ (s.NewFunctionID t.Func).1 ++ " $r\x7d\x7d")
          ((s.NewFunctionID t.Func).2.Funcs (s.NewFunctionID t.Func).1 t.Func)
            = (s3, Outcome.ok) →
        content s3 = (s4, Outcome.ok) →
        Raw.Init "\x7b\x7bend\x7d\x7d" s4 = (s5, Outcome.error e) →
        t.Init s = (s5, Outcome.error (Error.wrap "failed to write with suffix" e)))
    ∧ (∀ msg e, (Error.wrap msg e).root = e.root) := by
  rcases t with ⟨fn, c⟩
  simp only at hcontent
  subst hcontent
  have hT2 : s.CanTemplate = true := hT
  refine ⟨?_, ?_, ?_, fun _ _ => rfl⟩
  · intro s3 e h1
    simp only [With.Init, hT2]
    simp [h1]
  · intro s3 s4 e h1 h2
    simp only [With.Init, hT2]
    simp [h1, h2]
  · intro s3 s4 s5 e h1 h2 h3
    simp only [With.Init, hT2]
    simp [h1, h2, h3]

/-- C16 at a scope around a literal, with writers that reject the first, the
second and the third write. -/
theorem C16_with_error_phases_witness :
    withX.Init envFailFirst
      = (envWFail1, Outcome.error (Error.wrap "failed to write with prefix"
          (Error.io "write failed")))
    ∧ withX.Init envFailSecond
      = (envWFail2, Outcome.error (Error.wrap "failed to write with content"
          (Error.io "write failed")))
    ∧ withX.Init envFailThird
      = (envWFail3, Outcome.error (Error.wrap "failed to write with suffix"
          (Error.io "write failed"))) :=
  ⟨(C16_with_error_phases withX (Raw.Init "X") envFailFirst rfl rfl).1 envWFail1
      (Error.io "write failed") (by rfl),
   (C16_with_error_phases withX (Raw.Init "X") envFailSecond rfl rfl).2.1 envW3Fail2 envWFail2
      (Error.io "write failed") (by rfl) (by rfl),
   (C16_with_error_phases withX (Raw.Init "X") envFailThird rfl rfl).2.2.1 envW3Fail3
      envW4Fail3 envWFail3 (Error.io "write failed") (by rfl) (by rfl) (by rfl)⟩

theorem loop_append (first : List Condition) :
    ∀ (rest : List Condition) (i : Nat) (elses : List Component) (branches : Nat) (s : Env),
      Conditions.loop (first ++ rest) i elses branches s
        = match Conditions.loop first i elses branches s with
          | LoopExit.finished e b s1 => Conditions.loop rest (i + first.length) e b s1
          | LoopExit.left s1 o => LoopExit.left s1 o := by
  induction first with
  | nil =>
    intro rest i elses branches s
    simp [Conditions.loop]
  | cons tc more ih =>
    intro rest i elses branches s
    have hi : i + (tc :: more).length = i + 1 + more.length := by
      simp only [List.length_cons]; omega
    rw [hi]
    rcases tc with ⟨cond, content⟩
    cases cond with
    | none =>
      cases content with
      | none =>
        simp only [List.cons_append, Conditions.loop]
        exact ih _ _ _ _ _
      | some c =>
        simp only [List.cons_append, Conditions.loop]
        exact ih _ _ _ _ _
    | some p =>
      simp only [List.cons_append, Conditions.loop]
      rcases h1 : Raw.Init ("\x7b\x7b" ++ (if branches > 0 then "else " else "")
          ++ Condition.ConditionString ⟨some p, content⟩ (s.NewFunctionID p).1 ++ "\x7d\x7d")
          ((s.NewFunctionID p).2.Funcs (s.NewFunctionID p).1 p) with ⟨s3, o3⟩
      cases o3 with
      | error e => rfl
      | panic => rfl
      | ok =>
        simp only
        rcases h2 : callInit content s3 with ⟨s4, o4⟩
        cases o4 with
        | error e => rfl
        | panic => rfl
        | ok =>
          simp only
          exact ih _ _ _ _ _

/-- C17: a chain of two or more entries, compiled with templating enabled, whose
entry at position `i` has a predicate, the guarded entries before it having
compiled without failure (reaching the context `s1`).  If the guard of entry `i`
fails with `e`, `Init` returns `e` wrapped as `failed to write Conditions[i]`;
if its content fails with `e`, `Init` returns `e` wrapped as `failed to write
Conditions[i].Content`.  The index `i` is the position in the input, entries
without predicate counted.  In both cases the context returned is the context
of the failure: nothing is allocated, registered or written afterwards. -/
theorem C17_chain_entry_failure (before after : List Condition) (tc : Condition)
    (cond : Callback) (s s1 : Env)
    (hT : s.CanTemplate = true)
    (hlen : 2 ≤ (before ++ tc :: after).length)
    (hc : ∀ x ∈ before, x.Condition ≠ none → x.Content ≠ none)
    (hrun : runSteps (guardSteps 0 (guardedOf before)) s = some s1)
    (hp : tc.Condition = some cond) :
    (∀ s3 e,
        Raw.Init ((if (guardedOf before).length > 0 then "\x7b\x7belse if " else "\x7b\x7bif ")
            ++ (s1.NewFunctionID cond).1 ++ " $r\x7d\x7d")
          ((s1.NewFunctionID cond).2.Funcs (s1.NewFunctionID cond).1 cond)
            = (s3, Outcome.error e) →
        Conditions.Init (before ++ tc :: after) s
          = (s3, Outcome.error
              (Error.wrap ("failed to write Conditions[" ++ toString before.length ++ "]") e)))
    ∧ (∀ s3 s4 content e,
        Raw.Init ((if (guardedOf before).length > 0 then "\x7b\x7belse if " else "\x7b\x7bif ")
            ++ (s1.NewFunctionID cond).1 ++ " $r\x7d\x7d")
          ((s1.NewFunctionID cond).2.Funcs (s1.NewFunctionID cond).1 cond)
            = (s3, Outcome.ok) →
        tc.Content = some content →
        content s3 = (s4, Outcome.error e) →
        Conditions.Init (before ++ tc :: after) s
          = (s4, Outcome.error
              (Error.wrap
                ("failed to write Conditions[" ++ toString before.length ++ "].Content") e)))
    ∧ (∀ msg e, (Error.wrap msg e).root = e.root) := by
  have hl := loop_of_run before 0 [] 0 s s1 hc hrun
  have hinit : Conditions.Init (before ++ tc :: after) s
      = Conditions.afterLoop (Conditions.loop (tc :: after) before.length
          (fallbackOf before) ((guardedOf before).length) s1) := by
    rw [init_of_two_le _ s hT hlen, loop_append, hl]
    simp
  rcases tc with ⟨p, c⟩
  simp only at hp
  subst hp
  refine ⟨?_, ?_, fun _ _ => rfl⟩
  · intro s3 e h1
    rw [hinit]
    simp only [Conditions.loop, loop_guard_text, h1, Conditions.afterLoop]
  · intro s3 s4 content e h1 h2 h3
    simp only at h2
    subst h2
    rw [hinit]
    simp only [Conditions.loop, loop_guard_text, h1, callInit, h3, Conditions.afterLoop]

/-- C17 at the chain `[{nil,B},{p,A}]`, whose guarded entry has index 1, with a
writer that rejects the first write (the guard) and one that rejects the second
(the content). -/
theorem C17_chain_entry_failure_witness :
    Conditions.Init chainBA envFailFirst
      = (envCFail1, Outcome.error (Error.wrap "failed to write Conditions[1]"
          (Error.io "write failed")))
    ∧ Conditions.Init chainBA envFailSecond
      = (envCFail2, Outcome.error (Error.wrap "failed to write Conditions[1].Content"
          (Error.io "write failed"))) :=
  ⟨(C17_chain_entry_failure [⟨none, some (Raw.Init "B")⟩] [] ⟨some 10, some (Raw.Init "A")⟩ 10
      envFailFirst envFailFirst rfl (by decide) (by simp) (by rfl) rfl).1 envCFail1
      (Error.io "write failed") (by rfl),
   (C17_chain_entry_failure [⟨none, some (Raw.Init "B")⟩] [] ⟨some 10, some (Raw.Init "A")⟩ 10
      envFailSecond envFailSecond rfl (by decide) (by simp) (by rfl) rfl).2.1 envC3Fail2
      envCFail2 (Raw.Init "A") (Error.io "write failed") (by rfl) rfl (by rfl)⟩

theorem stepwise_fragment (R : Env → Env → Prop) (hR : Stepwise R) (cs : List Component)
    (h : ∀ c ∈ cs, ∀ x, R x (c x).1) : ∀ s, R s (Fragment.Init cs s).1 := by
  induction cs with
  | nil => intro s; exact hR.1 s
  | cons c rest ih =>
    intro s
    have hc := h c (List.mem_cons_self _ _) s
    have hr := ih (fun x hx => h x (List.mem_cons_of_mem _ hx))
    simp only [Fragment.Init]
    rcases h1 : c s with ⟨s1, o⟩
    rw [h1] at hc
    cases o with
    | ok => exact hR.2.1 _ _ _ hc (hr s1)
    | error e => exact hc
    | panic => exact hc

theorem stepwise_variable (R : Env → Env → Prop) (hR : Stepwise R) (tv : Variable) :
    ∀ s, R s (tv.Init s).1 := by
  intro s
  unfold Variable.Init
  cases hT : s.CanTemplate with
  | false => exact hR.1 s
  | true => exact hR.2.2.2 s tv.Func _

theorem stepwise_with (R : Env → Env → Prop) (hR : Stepwise R) (t : With)
    (h : ∀ c, t.Content = some c → ∀ x, R x (c x).1) : ∀ s, R s (t.Init s).1 := by
  intro s
  unfold With.Init
  cases hT : s.CanTemplate with
  | false => exact hR.1 s
  | true =>
    rcases t with ⟨fn, content⟩
    cases content with
    | none => exact hR.1 s
    | some c =>
      have hc := h c rfl
      have E3 := hR.2.2.2 s fn ("\x7b\x7bwith " ++ (s.NewFunctionID fn).1 ++ " $r\x7d\x7d")
      simp only [Bool.not_true, Bool.false_eq_true, if_false]
      rcases h1 : Raw.Init ("\x7b\x7bwith " ++ (s.NewFunctionID fn).1 ++ " $r\x7d\x7d")
        ((s.NewFunctionID fn).2.Funcs (s.NewFunctionID fn).1 fn) with ⟨s3, o3⟩
      rw [h1] at E3
      cases o3 with
      | error e => exact E3
      | panic => exact E3
      | ok =>
        simp only
        have E4 := hR.2.1 _ _ _ E3 (hc s3)
        rcases h2 : c s3 with ⟨s4, o4⟩
        rw [h2] at E4
        cases o4 with
        | error e => exact E4
        | panic => exact E4
        | ok =>
          simp only
          have E5 := hR.2.1 _ _ _ E4 (hR.2.2.1 s4 "\x7b\x7bend\x7d\x7d")
          rcases h3 : Raw.Init "\x7b\x7bend\x7d\x7d" s4 with ⟨s5, o5⟩
          rw [h3] at E5
          cases o5 <;> exact E5

theorem stepwise_condition (R : Env → Env → Prop) (hR : Stepwise R) (tc : Condition)
    (h : ∀ c, tc.Content = some c → ∀ x, R x (c x).1) : ∀ s, R s (tc.Init s).1 := by
  intro s
  unfold Condition.Init
  cases hT : s.CanTemplate with
  | false => exact hR.1 s
  | true =>
    rcases tc with ⟨cond, content⟩
    cases content with
    | none => exact hR.1 s
    | some c =>
      have hc := h c rfl
      cases cond with
      | none => exact hc s
      | some p =>
        have E3 := hR.2.2.2 s p ("\x7b\x7bif " ++ (s.NewFunctionID p).1 ++ " $r\x7d\x7d")
        simp only [Bool.not_true, Bool.false_eq_true, if_false, Condition.ConditionString,
          guard_if_text]
        rcases h1 : Raw.Init ("\x7b\x7bif " ++ (s.NewFunctionID p).1 ++ " $r\x7d\x7d")
          ((s.NewFunctionID p).2.Funcs (s.NewFunctionID p).1 p) with ⟨s3, o3⟩
        rw [h1] at E3
        cases o3 with
        | error e => exact E3
        | panic => exact E3
        | ok =>
          simp only
          have E4 := hR.2.1 _ _ _ E3 (hc s3)
          rcases h2 : c s3 with ⟨s4, o4⟩
          rw [h2] at E4
          cases o4 with
          | error e => exact E4
          | panic => exact E4
          | ok =>
            simp only
            have E5 := hR.2.1 _ _ _ E4 (hR.2.2.1 s4 "\x7b\x7bend\x7d\x7d")
            rcases h3 : Raw.Init "\x7b\x7bend\x7d\x7d" s4 with ⟨s5, o5⟩
            rw [h3] at E5
            cases o5 <;> exact E5

theorem stepwise_loop (R : Env → Env → Prop) (hR : Stepwise R) (tcs : Conditions) :
    ∀ (i : Nat) (elses : List Component) (branches : Nat) (s : Env),
      (∀ tc ∈ tcs, ∀ c, tc.Content = some c → ∀ x, R x (c x).1) →
      (∀ c ∈ elses, ∀ x, R x (c x).1) →
      (Conditions.loop tcs i elses branches s).Related R s := by
  induction tcs with
  | nil =>
    intro i elses branches s _ he
    exact ⟨hR.1 s, he⟩
  | cons tc rest ih =>
    intro i elses branches s ht he
    have hrest : ∀ tc ∈ rest, ∀ c, tc.Content = some c → ∀ x, R x (c x).1 :=
      fun x hx => ht x (List.mem_cons_of_mem _ hx)
    have h0 := ht tc (List.mem_cons_self _ _)
    rcases tc with ⟨cond, content⟩
    cases cond with
    | none =>
      cases content with
      | none =>
        simp only [Conditions.loop]
        exact ih _ _ _ _ hrest he
      | some c =>
        simp only [Conditions.loop]
        apply ih _ _ _ _ hrest
        intro x hx
        rcases List.mem_append.mp hx with hx | hx
        · exact he x hx
        · rw [List.mem_singleton.mp hx]
          exact h0 c rfl
    | some p =>
      simp only [Conditions.loop, loop_guard_text]
      have E3 := hR.2.2.2 s p
        ((if branches > 0 then "\x7b\x7belse if " else "\x7b\x7bif ")
          ++ (s.NewFunctionID p).1 ++ " $r\x7d\x7d")
      rcases h1 : Raw.Init ((if branches > 0 then "\x7b\x7belse if " else "\x7b\x7bif ")
          ++ (s.NewFunctionID p).1 ++ " $r\x7d\x7d")
          ((s.NewFunctionID p).2.Funcs (s.NewFunctionID p).1 p) with ⟨s3, o3⟩
      rw [h1] at E3
      cases o3 with
      | error e => exact E3
      | panic => exact E3
      | ok =>
        simp only
        have E4 : R s (callInit content s3).1 := by
          cases content with
          | none => exact E3
          | some c => exact hR.2.1 _ _ _ E3 (h0 c rfl s3)
        rcases h2 : callInit content s3 with ⟨s4, o4⟩
        rw [h2] at E4
        cases o4 with
        | error e => exact E4
        | panic => exact E4
        | ok =>
          simp only
          have hi := ih (i + 1) elses (branches + 1) s4 hrest he
          cases hl : Conditions.loop rest (i + 1) elses (branches + 1) s4 with
          | finished e b s5 =>
            rw [hl] at hi
            exact ⟨hR.2.1 _ _ _ E4 hi.1, hi.2⟩
          | left s5 o5 =>
            rw [hl] at hi
            exact hR.2.1 _ _ _ E4 hi

theorem stepwise_close (R : Env → Env → Prop) (hR : Stepwise R) (branches : Nat) (s : Env) :
    R s (Conditions.close branches s).1 := by
  unfold Conditions.close
  by_cases hb : branches > 0
  · simp only [hb, if_true]
    have E := hR.2.2.1 s "\x7b\x7bend\x7d\x7d"
    rcases h : Raw.Init "\x7b\x7bend\x7d\x7d" s with ⟨s1, o⟩
    rw [h] at E
    cases o <;> exact E
  · simp only [hb, if_false]
    exact hR.1 s

theorem stepwise_finish (R : Env → Env → Prop) (hR : Stepwise R) (elses : List Component)
    (branches : Nat) (he : ∀ c ∈ elses, ∀ x, R x (c x).1) (s : Env) :
    R s (Conditions.finish elses branches s).1 := by
  unfold Conditions.finish
  have hfrag := stepwise_fragment R hR elses he
  by_cases hl : elses.length > 0
  · simp only [hl, if_true]
    by_cases hb : branches > 0
    · simp only [hb, if_true]
      have E1 := hR.2.2.1 s "\x7b\x7belse\x7d\x7d"
      rcases h1 : Raw.Init "\x7b\x7belse\x7d\x7d" s with ⟨s1, o1⟩
      rw [h1] at E1
      cases o1 with
      | error e => exact E1
      | panic => exact E1
      | ok =>
        simp only
        have E2 := hR.2.1 _ _ _ E1 (hfrag s1)
        rcases h2 : Fragment.Init elses s1 with ⟨s2, o2⟩
        rw [h2] at E2
        cases o2 with
        | panic => exact E2
        | ok => exact hR.2.1 _ _ _ E2 (stepwise_close R hR branches s2)
        | error e => exact hR.2.1 _ _ _ E2 (stepwise_close R hR branches s2)
    · simp only [hb, if_false]
      have E2 := hfrag s
      rcases h2 : Fragment.Init elses s with ⟨s2, o2⟩
      rw [h2] at E2
      cases o2 with
      | panic => exact E2
      | ok => exact hR.2.1 _ _ _ E2 (stepwise_close R hR branches s2)
      | error e => exact hR.2.1 _ _ _ E2 (stepwise_close R hR branches s2)
  · simp only [hl, if_false]
    exact stepwise_close R hR branches s

theorem stepwise_chain (R : Env → Env → Prop) (hR : Stepwise R) (tcs : Conditions)
    (h : ∀ tc ∈ tcs, ∀ c, tc.Content = some c → ∀ x, R x (c x).1) :
    ∀ s, R s (Conditions.Init tcs s).1 := by
  intro s
  cases hT : s.CanTemplate with
  | false => simp only [Conditions.Init, hT]; exact hR.1 s
  | true =>
    match tcs, h with
    | [], _ => simp only [Conditions.Init, hT]; exact hR.1 s
    | [tc], h =>
      have e : Conditions.Init [tc] s = tc.Init s := by
        simp [Conditions.Init, hT]
      rw [e]
      exact stepwise_condition R hR tc (h tc (List.mem_singleton.mpr rfl)) s
    | a :: b :: rest, h =>
      rw [init_long a b rest s hT]
      have hl := stepwise_loop R hR (a :: b :: rest) 0 [] 0 s h (by simp)
      cases hx : Conditions.loop (a :: b :: rest) 0 [] 0 s with
      | left s1 o => rw [hx] at hl; exact hl
      | finished elses branches s1 =>
        rw [hx] at hl
        exact hR.2.1 _ _ _ hl.1 (stepwise_finish R hR elses branches hl.2 s1)

theorem stepwise_of_tree (R : Env → Env → Prop) (hR : Stepwise R) (lit : String → Prop)
    (c : Component) (h : Tree lit c) : ∀ s, R s (c s).1 := by
  induction h with
  | raw text _ => exact fun s => hR.2.2.1 s text
  | fragment cs _ ih => exact stepwise_fragment R hR cs ih
  | binding tv => exact stepwise_variable R hR tv
  | scope t _ ih => exact stepwise_with R hR t ih
  | condition tc _ ih => exact stepwise_condition R hR tc ih
  | chain tcs _ ih => exact stepwise_chain R hR tcs ih

theorem issuedIds_append (naming : List Callback → Callback → String)
    (a : List Callback) : ∀ (issued b : List Callback),
      issuedIds naming issued (a ++ b)
        = issuedIds naming issued a ++ issuedIds naming (issued ++ a) b := by
  induction a with
  | nil => intro issued b; simp [issuedIds]
  | cons fn rest ih =>
    intro issued b
    rw [List.cons_append]
    simp only [issuedIds]
    rw [ih (issued ++ [fn]) b]
    simp

theorem raw_generator (s : Env) (text : String) :
    (Raw.Init text s).1.generator = s.generator := by
  unfold Raw.Init
  rcases hw : s.Write text with ⟨s1, r⟩
  cases r with
  | none => exact (write_accepted _ _ _ hw).2.1
  | some e => exact (write_rejected _ _ _ _ hw).2.1

theorem grows_refl (s : Env) : Grows s s :=
  ⟨rfl, [], [], by simp, by simp, by simp⟩

theorem grows_trans (a b c : Env) (h1 : Grows a b) (h2 : Grows b c) : Grows a c := by
  obtain ⟨n1, v1, e1, i1, t1, r1⟩ := h1
  obtain ⟨n2, v2, e2, i2, t2, r2⟩ := h2
  refine ⟨n2.trans n1, v1 ++ v2, e1 ++ e2, ?_, ?_, ?_⟩
  · rw [i2, i1, List.append_assoc]
  · rw [t2, t1, List.append_assoc]
  · intro id fn hm
    rw [issuedIds_append]
    rcases List.mem_append.mp hm with hm | hm
    · exact List.mem_append_left _ (r1 id fn hm)
    · have := r2 id fn hm
      rw [n1, i1] at this
      exact List.mem_append_right _ this

theorem grows_raw (s : Env) (text : String) : Grows s (Raw.Init text s).1 := by
  have hg := raw_generator s text
  refine ⟨by rw [hg], [], ?_⟩
  rcases raw_trace s text with ht | ht
  · refine ⟨[Event.wrote text], by rw [hg]; simp, ht, ?_⟩
    intro id fn hm
    simp at hm
  · refine ⟨[], by rw [hg]; simp, by rw [ht]; simp, ?_⟩
    intro id fn hm
    simp at hm

theorem grows_guard (s : Env) (fn : Callback) (text : String) :
    Grows s (Raw.Init text ((s.NewFunctionID fn).2.Funcs (s.NewFunctionID fn).1 fn)).1 := by
  have hg := raw_generator ((s.NewFunctionID fn).2.Funcs (s.NewFunctionID fn).1 fn) text
  have h0 : ((s.NewFunctionID fn).2.Funcs (s.NewFunctionID fn).1 fn).trace
      = s.trace ++ [Event.registered (s.NewFunctionID fn).1 fn] := by
    simp [Env.Funcs, Env.NewFunctionID]
  have hid : (s.NewFunctionID fn).1 ∈ issuedIds s.generator.naming s.generator.issued [fn] := by
    simp [issuedIds, Env.NewFunctionID]
  refine ⟨by rw [hg]; rfl, [fn], ?_⟩
  rcases raw_trace ((s.NewFunctionID fn).2.Funcs (s.NewFunctionID fn).1 fn) text with ht | ht
  · refine ⟨[Event.registered (s.NewFunctionID fn).1 fn, Event.wrote text], by rw [hg]; rfl,
      by rw [ht, h0]; simp, ?_⟩
    intro id g hm
    simp only [List.mem_cons, Event.registered.injEq, reduceCtorEq, List.mem_singleton,
      List.not_mem_nil, or_false] at hm
    rw [hm.1]
    exact hid
  · refine ⟨[Event.registered (s.NewFunctionID fn).1 fn], by rw [hg]; rfl, by rw [ht, h0], ?_⟩
    intro id g hm
    simp only [List.mem_singleton, Event.registered.injEq] at hm
    rw [hm.1]
    exact hid

theorem stepwise_grows : Stepwise Grows :=
  ⟨grows_refl, grows_trans, grows_raw, grows_guard⟩

theorem lookupFunc_none_of_not_mem (ev : List Event) (x : String)
    (h : ∀ fn, Event.registered x fn ∉ ev) : lookupFunc ev x = none := by
  induction ev with
  | nil => rfl
  | cons e rest ih =>
    have hr := ih (fun fn hm => h fn (List.mem_cons_of_mem _ hm))
    cases e with
    | wrote text => simpa [lookupFunc] using hr
    | registered id g =>
      have hne : x ≠ id := by
        intro he
        exact h g (by rw [he]; exact List.mem_cons_self _ _)
      simp [lookupFunc, hr, hne]

/-- C18: the function registry only grows.  For every tree of `Variable`,
`With`, `Condition`, `Conditions`, sequential and literal nodes and every
starting context, however `Init` ends: every identifier that was a key of the
registry before is a key after; and with `served` the callbacks the generator
served during this `Init`, every name that is not among the identifiers it
returned for them maps to the same callback (or to none) as before. -/
theorem C18_registry_only_grows (lit : String → Prop) (c : Component)
    (hc : Tree lit c) (s : Env) :
    ∃ served, (c s).1.generator.issued = s.generator.issued ++ served
      ∧ (∀ x, (s.lookup x).isSome = true → ((c s).1.lookup x).isSome = true)
      ∧ (∀ x, x ∉ issuedIds s.generator.naming s.generator.issued served →
          (c s).1.lookup x = s.lookup x) := by
  obtain ⟨_, served, ev, hi, ht, hr⟩ := stepwise_of_tree Grows stepwise_grows lit c hc s
  refine ⟨served, hi, ?_, ?_⟩
  · intro x hx
    unfold Env.lookup at hx ⊢
    rw [ht, lookupFunc_append]
    cases lookupFunc ev x with
    | some g => rfl
    | none => exact hx
  · intro x hx
    unfold Env.lookup
    rw [ht, lookupFunc_append, lookupFunc_none_of_not_mem ev x (fun fn hm => hx (hr x fn hm))]

/-- C18 at a chain that fails half way, compiled into a context whose registry
holds `old`: the tree is a tree of the six node kinds, and `old` keeps its
callback. -/
theorem C18_registry_only_grows_witness :
    Tree litAX (Conditions.Init chainWithFallback)
    ∧ (∃ served, (Conditions.Init chainWithFallback envOld).1.generator.issued
          = envOld.generator.issued ++ served
        ∧ (∀ x, (envOld.lookup x).isSome = true →
            ((Conditions.Init chainWithFallback envOld).1.lookup x).isSome = true)
        ∧ (∀ x, x ∉ issuedIds envOld.generator.naming envOld.generator.issued served →
            (Conditions.Init chainWithFallback envOld).1.lookup x = envOld.lookup x))
    ∧ (Conditions.Init chainWithFallback envOld).1.lookup "old" = some 99 :=
  ⟨tree_chainWithFallback,
    C18_registry_only_grows litAX (Conditions.Init chainWithFallback) tree_chainWithFallback
      envOld,
    by decide⟩

/-- C19, evaluated: a write after the failure.  In `[{p,A},{nil,B}]` compiled
with a writer that rejects the fourth write, the loop and the `{{else}}`
succeed, the fallback content fails on `B`, and `Conditions.Init` goes on: it
writes `{{end}}` after the failure and returns nil. -/
theorem C19_end_written_after_failure :
    Conditions.loop chainAB 0 [] 0 envFailFourth
      = LoopExit.finished [Raw.Init "B"] 1 envABLoop
    ∧ Raw.Init "\x7b\x7belse\x7d\x7d" envABLoop = (envABElse, Outcome.ok)
    ∧ Fragment.Init [Raw.Init "B"] envABElse
        = (envABFailed, Outcome.error (Error.io "write failed"))
    ∧ Conditions.Init chainAB envFailFourth = (envABEnd, Outcome.ok)
    ∧ envABEnd.trace = envABFailed.trace ++ [Event.wrote "\x7b\x7bend\x7d\x7d"] := by
  refine ⟨by rfl, by rfl, by rfl, by rfl, by decide⟩

/-- C20, evaluated: an inert entry changes the status of the compile.  With a
writer that rejects the first write, the chain `[{nil,B},{nil,nil}]` returns
nil, and the same chain without its inert entry, `[{nil,B}]`, returns the
writer's error; both leave the stream empty. -/
theorem C20_inert_entry_changes_status :
    (withoutInert chainBInert).length = 1
    ∧ Conditions.Init (withoutInert chainBInert) envFailFirst
        = Conditions.Init [⟨none, some (Raw.Init "B")⟩] envFailFirst
    ∧ (Conditions.Init chainBInert envFailFirst).2 = Outcome.ok
    ∧ (Conditions.Init (withoutInert chainBInert) envFailFirst).2
        = Outcome.error (Error.io "write failed")
    ∧ (Conditions.Init chainBInert envFailFirst).1.trace = []
    ∧ (Conditions.Init (withoutInert chainBInert) envFailFirst).1.trace = [] := by
  refine ⟨by decide, by rfl, by decide, by decide, by decide, by decide⟩

theorem loop_cause_withoutInert (tcs : Conditions) :
    ∀ (i j : Nat) (elses : List Component) (branches : Nat) (s : Env),
      (Conditions.loop tcs i elses branches s).cause
        = (Conditions.loop (withoutInert tcs) j elses branches s).cause := by
  induction tcs with
  | nil =>
    intro i j elses branches s
    rfl
  | cons tc rest ih =>
    intro i j elses branches s
    rcases tc with ⟨cond, content⟩
    cases cond with
    | none =>
      cases content with
      | none =>
        have hw : withoutInert (⟨none, none⟩ :: rest) = withoutInert rest := by
          simp [withoutInert, List.filter_cons]
        rw [hw]
        simp only [Conditions.loop]
        exact ih _ _ _ _ _
      | some c =>
        have hw : withoutInert (⟨none, some c⟩ :: rest) = ⟨none, some c⟩ :: withoutInert rest := by
          simp [withoutInert, List.filter_cons]
        rw [hw]
        simp only [Conditions.loop]
        exact ih _ _ _ _ _
    | some p =>
      have hw : withoutInert (⟨some p, content⟩ :: rest)
          = ⟨some p, content⟩ :: withoutInert rest := by
        simp [withoutInert, List.filter_cons]
      rw [hw]
      simp only [Conditions.loop]
      rcases h1 : Raw.Init ("\x7b\x7b" ++ (if branches > 0 then "else " else "")
          ++ Condition.ConditionString ⟨some p, content⟩ (s.NewFunctionID p).1 ++ "\x7d\x7d")
          ((s.NewFunctionID p).2.Funcs (s.NewFunctionID p).1 p) with ⟨s3, o3⟩
      cases o3 with
      | error e => simp [LoopExit.cause, Outcome.cause, Error.root]
      | panic => simp [LoopExit.cause, Outcome.cause]
      | ok =>
        simp only
        rcases h2 : callInit content s3 with ⟨s4, o4⟩
        cases o4 with
        | error e => simp [LoopExit.cause, Outcome.cause, Error.root]
        | panic => simp [LoopExit.cause, Outcome.cause]
        | ok =>
          simp only
          exact ih _ _ _ _ _

theorem eq_finished_of_cause (l : LoopExit) (elses : List Component) (branches : Nat)
    (s : Env) (h : l.cause = LoopExit.finished elses branches s) :
    l = LoopExit.finished elses branches s := by
  cases l with
  | finished e b s1 => exact h
  | left s1 o => simp [LoopExit.cause] at h

theorem single_fallback_loop (c : Component) (s : Env) :
    (Conditions.afterLoop (Conditions.loop [⟨none, some c⟩] 0 [] 0 s)).1 = (c s).1
      ∧ ((c s).2 = Outcome.ok ∨ (c s).2 = Outcome.panic →
          (Conditions.afterLoop (Conditions.loop [⟨none, some c⟩] 0 [] 0 s)).2 = (c s).2) := by
  simp only [Conditions.loop, List.nil_append, Conditions.afterLoop, Conditions.finish,
    List.length_singleton, gt_iff_lt, Nat.lt_irrefl, if_false, Nat.zero_lt_one, if_true,
    Fragment.Init]
  rcases h : c s with ⟨s1, o⟩
  cases o with
  | ok => simp [Fragment.Init, Conditions.close]
  | panic => simp
  | error e => simp [Conditions.close]

theorem guard_first_text (id : String) :
    "\x7b\x7b" ++ "" ++ ("if " ++ id ++ " $r") ++ "\x7d\x7d"
      = "\x7b\x7bif " ++ id ++ " $r\x7d\x7d" := by
  apply String.ext
  simp

theorem single_guarded_loop (p : Callback) (c : Component) (s : Env)
    (hT : s.CanTemplate = true) :
    (Conditions.afterLoop (Conditions.loop [⟨some p, some c⟩] 0 [] 0 s)).1
        = ((Condition.mk (some p) (some c)).Init s).1
      ∧ (Conditions.afterLoop (Conditions.loop [⟨some p, some c⟩] 0 [] 0 s)).2.cause
        = ((Condition.mk (some p) (some c)).Init s).2.cause := by
  have hT2 : s.CanTemplate = true := hT
  simp only [Conditions.loop, gt_iff_lt, Nat.lt_irrefl, if_false,
    Condition.Init, hT2, Bool.not_true, Bool.false_eq_true, Condition.ConditionString,
    guard_first_text, guard_if_text, callInit]
  rcases h1 : Raw.Init ("\x7b\x7bif " ++ (s.NewFunctionID p).1 ++ " $r\x7d\x7d")
      ((s.NewFunctionID p).2.Funcs (s.NewFunctionID p).1 p) with ⟨s3, o3⟩
  cases o3 with
  | error e => simp [Conditions.afterLoop, Outcome.cause, Error.root]
  | panic => simp [Conditions.afterLoop]
  | ok =>
    simp only
    rcases h2 : c s3 with ⟨s4, o4⟩
    cases o4 with
    | error e => simp [Conditions.afterLoop, Outcome.cause, Error.root]
    | panic => simp [Conditions.afterLoop]
    | ok =>
      simp only [Conditions.afterLoop, Conditions.finish, List.length_nil, gt_iff_lt,
        Nat.lt_irrefl, if_false, Conditions.close, Nat.zero_add, Nat.zero_lt_one, if_true]
      rcases h3 : Raw.Init "\x7b\x7bend\x7d\x7d" s4 with ⟨s5, o5⟩
      cases o5 with
      | error e => simp [Outcome.cause, Error.root]
      | panic => simp
      | ok => simp

theorem mem_of_mem_withoutInert (tcs : Conditions) (tc : Condition)
    (h : tc ∈ withoutInert tcs) :
    tc ∈ tcs ∧ (tc.Condition.isSome || tc.Content.isSome) = true := by
  unfold withoutInert at h
  exact List.mem_filter.mp h

/-- Inert entries and the context.  For every chain whose entries with a
predicate all have content, and every starting context, removing the entries
whose predicate and content are both nil leaves the context `Conditions.Init`
ends in unchanged (same text, same registry, same generator); the results agree
up to the wrapping of an error, except when what is left is a single
predicate-less entry, whose failure the longer chain drops. -/
theorem inert_entries_same_context (tcs : Conditions) (s : Env)
    (hc : ∀ tc ∈ tcs, tc.Condition ≠ none → tc.Content ≠ none) :
    (Conditions.Init tcs s).1 = (Conditions.Init (withoutInert tcs) s).1
    ∧ ((∀ c, withoutInert tcs ≠ [⟨none, some c⟩]) →
        (Conditions.Init tcs s).2.cause = (Conditions.Init (withoutInert tcs) s).2.cause) := by
  cases hT : s.CanTemplate with
  | false => simp [Conditions.Init, hT]
  | true =>
    match tcs, hc with
    | [], _ => exact ⟨rfl, fun _ => rfl⟩
    | [tc], _ =>
      rcases tc with ⟨cond, content⟩
      cases cond with
      | none =>
        cases content with
        | none =>
          have hw : withoutInert [⟨none, none⟩] = [] := by simp [withoutInert]
          rw [hw]
          simp [Conditions.Init, Condition.Init, hT]
        | some c =>
          have hw : withoutInert [⟨none, some c⟩] = [⟨none, some c⟩] := by simp [withoutInert]
          rw [hw]
          exact ⟨rfl, fun _ => rfl⟩
      | some p =>
        have hw : withoutInert [⟨some p, content⟩] = [⟨some p, content⟩] := by
          simp [withoutInert]
        rw [hw]
        exact ⟨rfl, fun _ => rfl⟩
    | a :: b :: rest, hc =>
      have hl : 2 ≤ (a :: b :: rest).length := by simp
      have L := loop_cause_withoutInert (a :: b :: rest) 0 0 [] 0 s
      rw [init_of_two_le _ s hT hl]
      match hW : withoutInert (a :: b :: rest) with
      | [] =>
        rw [hW] at L
        have e := eq_finished_of_cause _ _ _ _ L
        rw [e]
        simp [Conditions.afterLoop, Conditions.finish, Conditions.close, Conditions.Init, hT]
      | [tc] =>
        rw [hW] at L
        have hm : tc ∈ withoutInert (a :: b :: rest) := by rw [hW]; exact List.mem_singleton.mpr rfl
        obtain ⟨hin, hact⟩ := mem_of_mem_withoutInert _ _ hm
        have hcont := hc tc hin
        have A := afterLoop_cause _ _ L
        have e1 : Conditions.Init [tc] s = tc.Init s := by simp [Conditions.Init, hT]
        rw [e1]
        rcases tc with ⟨cond, content⟩
        cases cond with
        | none =>
          cases content with
          | none => simp at hact
          | some c =>
            have S := single_fallback_loop c s
            have e2 : (Condition.mk none (some c)).Init s = c s := by
              simp [Condition.Init, hT]
            rw [e2]
            refine ⟨A.1.trans S.1, fun hne => ?_⟩
            exact absurd rfl (hne c)
        | some p =>
          cases content with
          | none => exact absurd rfl (hcont (by simp))
          | some c =>
            have S := single_guarded_loop p c s hT
            exact ⟨A.1.trans S.1, fun _ => A.2.trans S.2⟩
      | x :: y :: more =>
        rw [hW] at L
        have hl2 : 2 ≤ (x :: y :: more).length := by simp
        rw [init_of_two_le _ s hT hl2]
        have A := afterLoop_cause _ _ L
        exact ⟨A.1, fun _ => A.2⟩

/-- The chain `[{nil,B},{nil,nil}]` and the chain without its inert entry end in
the same context, also when the write of `B` is rejected. -/
theorem inert_entries_same_context_witness :
    (Conditions.Init chainBInert envFailFirst).1
      = (Conditions.Init (withoutInert chainBInert) envFailFirst).1 :=
  (inert_entries_same_context chainBInert envFailFirst (by
    intro tc htc
    simp only [chainBInert, List.mem_cons, List.mem_singleton, List.not_mem_nil,
      or_false] at htc
    rcases htc with rfl | rfl <;> simp)).1

end Gohtmx
